import Mathlib

set_option maxRecDepth 100000
set_option maxHeartbeats 1000000

/-!
Verification development for the WebRTC-DHT peer core.

Byte buffers (Node.js `Buffer`) are modelled as `List Nat`, each element a
byte value below 256 at every use site.  Node ids are 32-byte buffers, message
ids 8-byte buffers.  All definitions are translated from the JavaScript
sources (`src/peer/utils.js`, `src/peer/routing-table.js`,
`src/peer/peer-node.js`); comments on each definition name the source
function it embeds.
-/

namespace DHT

/-- Translation of `xorDistance(a, b)` from utils.js: allocates a buffer of
`a.length` and sets `buf[i] = a[i] ^ b[i]`.  Reading past the end of `b`
yields `undefined`, which the JS xor coerces to 0, hence `getD _ 0`. -/
def xorDistance (a b : List Nat) : List Nat :=
  (List.range a.length).map (fun i => Nat.xor (a.getD i 0) (b.getD i 0))

/-- Translation of `compareDistance(a, b)` from utils.js: scan for the first
index where the buffers differ and return the signed byte difference, else 0.
Every call site compares two equal-length distance buffers; for the
out-of-domain case where one list is a strict prefix of the other (where the
JS loop would read `undefined`) we extend lexicographically, making the
induced order total. -/
def compareDistance : List Nat → List Nat → Int
  | [], [] => 0
  | [], _ :: _ => -1
  | _ :: _, [] => 1
  | a :: as, b :: bs => if a = b then compareDistance as bs else (a : Int) - (b : Int)

/-- Comparator used by the `results.sort(...)` calls: ascending XOR distance
to a target, as a Boolean "less or equal" suitable for a stable sort. -/
def distLe (t a b : List Nat) : Bool :=
  decide (compareDistance (xorDistance a t) (xorDistance b t) ≤ 0)

/-- Transitivity of the distance comparator (needed to know that the JS
stable sort actually sorts). -/
theorem compareDistance_trans :
    ∀ a b c : List Nat, compareDistance a b ≤ 0 → compareDistance b c ≤ 0 →
      compareDistance a c ≤ 0 := by
  intro a
  induction a with
  | nil =>
    intro b c _ _
    cases c with
    | nil => simp [compareDistance]
    | cons z zs => simp [compareDistance]
  | cons x xs ih =>
    intro b c h1 h2
    cases b with
    | nil => simp [compareDistance] at h1
    | cons y ys =>
      cases c with
      | nil => simp [compareDistance] at h2
      | cons z zs =>
        simp only [compareDistance] at h1 h2 ⊢
        by_cases hxy : x = y
        · subst hxy
          simp only [if_pos rfl] at h1
          by_cases hyz : x = z
          · subst hyz
            simp only [if_pos rfl] at h2 ⊢
            exact ih ys zs h1 h2
          · simp only [if_neg hyz] at h2 ⊢
            exact h2
        · simp only [if_neg hxy] at h1
          by_cases hyz : y = z
          · subst hyz
            simp only [if_neg hxy]
            exact h1
          · simp only [if_neg hyz] at h2
            by_cases hxz : x = z
            · subst hxz
              omega
            · simp only [if_neg hxz]
              omega

/-- Totality of the distance comparator. -/
theorem compareDistance_total :
    ∀ a b : List Nat, compareDistance a b ≤ 0 ∨ compareDistance b a ≤ 0 := by
  intro a
  induction a with
  | nil =>
    intro b
    cases b <;> simp [compareDistance]
  | cons x xs ih =>
    intro b
    cases b with
    | nil => simp [compareDistance]
    | cons y ys =>
      simp only [compareDistance]
      by_cases hxy : x = y
      · subst hxy
        simpa using ih ys
      · have hyx : ¬ y = x := fun h => hxy h.symm
        simp only [if_neg hxy, if_neg hyx]
        omega

theorem distLe_trans (t : List Nat) (a b c : List Nat)
    (h1 : distLe t a b) (h2 : distLe t b c) : distLe t a c := by
  simp only [distLe, decide_eq_true_eq] at h1 h2 ⊢
  exact compareDistance_trans _ _ _ h1 h2

theorem distLe_total (t : List Nat) (a b : List Nat) :
    distLe t a b || distLe t b a := by
  simp only [distLe, Bool.or_eq_true, decide_eq_true_eq]
  exact compareDistance_total _ _

/-! ## Routing table (`src/peer/routing-table.js`) -/

/-- One k-bucket: a live node sequence (front = least recently seen), a FIFO
replacement cache, and the `lastUsed` timestamp. -/
structure Bucket where
  nodes : List (List Nat)
  replacements : List (List Nat)
  lastUsed : Nat
  deriving Repr, DecidableEq, Inhabited

/-- The routing table: local node id, bucket capacity `k`, and
`nodeId.length * 8` buckets. -/
structure RoutingTable where
  nodeId : List Nat
  k : Nat
  buckets : List Bucket
  deriving Repr, DecidableEq

/-- Translation of the `RoutingTable` constructor: `nodeId.length * 8` empty
buckets (256 for 32-byte ids), each stamped with the construction time. -/
def RoutingTable.init (nodeId : List Nat) (k : Nat) (now : Nat) : RoutingTable :=
  { nodeId := nodeId, k := k,
    buckets := List.replicate (nodeId.length * 8)
      { nodes := [], replacements := [], lastUsed := now } }

/-- Scanning loop of `_bucketIndex`: find the first nonzero byte of the
distance and the position of its most significant set bit; the fallback for
an all-zero distance is `buckets.length - 1`. -/
def msbScan (fallback : Nat) : List Nat → Nat → Nat
  | [], _ => fallback
  | d :: ds, i =>
    if d = 0 then msbScan fallback ds (i + 1)
    else
      match (List.range 8).find? (fun bit => (d &&& (0x80 >>> bit)) != 0) with
      | some bit => i * 8 + bit
      | none => msbScan fallback ds (i + 1)

/-- Translation of `RoutingTable._bucketIndex(nodeId)`. -/
def RoutingTable.bucketIdx (rt : RoutingTable) (nodeId : List Nat) : Nat :=
  msbScan (rt.buckets.length - 1) (xorDistance rt.nodeId nodeId) 0

/-- Replace bucket `i` of the table (JS mutates `this.buckets[i]` in place). -/
def RoutingTable.setBucket (rt : RoutingTable) (i : Nat) (b : Bucket) : RoutingTable :=
  { rt with buckets := rt.buckets.set i b }

/-- Result of `addOrUpdateNode`; `rejected` models the early `return`
(JS returns `undefined`) for a non-buffer, wrong-length, or self id. -/
inductive AddResult where
  | updated
  | added
  | full (bucketIndex : Nat)
  | rejected
  deriving Repr, DecidableEq

/-- Translation of `RoutingTable.addOrUpdateNode(nodeId)`.  The
`Buffer.isBuffer` guard is always satisfied in the model.  `findIndex` +
`splice` + `push` on a hit is "erase the first occurrence, then append". -/
def RoutingTable.addOrUpdateNode (rt : RoutingTable) (now : Nat) (nodeId : List Nat) :
    RoutingTable × AddResult :=
  if nodeId.length ≠ rt.nodeId.length then (rt, .rejected)
  else if nodeId = rt.nodeId then (rt, .rejected)
  else
    let i := rt.bucketIdx nodeId
    let bucket := rt.buckets.getD i default
    if nodeId ∈ bucket.nodes then
      let b := { bucket with lastUsed := now, nodes := bucket.nodes.erase nodeId ++ [nodeId] }
      (rt.setBucket i b, .updated)
    else if bucket.nodes.length < rt.k then
      let b := { bucket with lastUsed := now, nodes := bucket.nodes ++ [nodeId] }
      (rt.setBucket i b, .added)
    else
      let repls :=
        if nodeId ∈ bucket.replacements then bucket.replacements
        else
          let r := bucket.replacements ++ [nodeId]
          if rt.k < r.length then r.tail else r
      (rt.setBucket i { bucket with lastUsed := now, replacements := repls }, .full i)

/-- Translation of `RoutingTable.removeNode(nodeId)`: drop the first
occurrence from the live sequence of its bucket. -/
def RoutingTable.removeNode (rt : RoutingTable) (nodeId : List Nat) : RoutingTable :=
  let i := rt.bucketIdx nodeId
  let bucket := rt.buckets.getD i default
  rt.setBucket i { bucket with nodes := bucket.nodes.erase nodeId }

/-- Translation of `RoutingTable.getLeastRecentlySeen(bucketIndex)`. -/
def RoutingTable.getLeastRecentlySeen (rt : RoutingTable) (i : Nat) : Option (List Nat) :=
  (rt.buckets.getD i default).nodes.head?

/-- Translation of `RoutingTable.evict(bucketIndex)`: `shift()` the live
sequence (a no-op on an empty bucket). -/
def RoutingTable.evict (rt : RoutingTable) (i : Nat) : RoutingTable :=
  let bucket := rt.buckets.getD i default
  rt.setBucket i { bucket with nodes := bucket.nodes.tail }

/-- Translation of `RoutingTable.promoteReplacement(bucketIndex)`: `shift()`
the replacement cache and, if it yielded a node, `push` it onto the live
sequence. -/
def RoutingTable.promoteReplacement (rt : RoutingTable) (i : Nat) : RoutingTable :=
  let bucket := rt.buckets.getD i default
  match bucket.replacements with
  | [] => rt.setBucket i bucket
  | r :: rs => rt.setBucket i { bucket with nodes := bucket.nodes ++ [r], replacements := rs }

/-- Collection loop of `findClosest`: visit buckets at index
`start + d` (even `d`) or `start - d` (odd `d`), skipping out-of-range
indices, pushing ids until `count` are collected. -/
def findClosestCollect (buckets : List Bucket) (start count : Nat) : List (List Nat) :=
  (List.range buckets.length).foldl
    (fun results d =>
      if count ≤ results.length then results
      else
        let i : Int := if d % 2 = 0 then (start : Int) + d else (start : Int) - d
        if i < 0 ∨ (buckets.length : Int) ≤ i then results
        else results ++ (buckets.getD i.toNat default).nodes.take (count - results.length))
    []

/-- Translation of `RoutingTable.findClosest(targetId, count)`: collect up to
`count` ids scanning buckets outward from the target bucket, then sort by XOR
distance to the target (JS `Array.prototype.sort` is stable; modelled by
`mergeSort`) and truncate.  The `lastUsed` touches it performs do not affect
the returned list and are not modelled here. -/
def RoutingTable.findClosest (rt : RoutingTable) (targetId : List Nat) (count : Nat) :
    List (List Nat) :=
  let start := rt.bucketIdx targetId
  let results := findClosestCollect rt.buckets start count
  (results.mergeSort (fun a b => distLe targetId a b)).take count

/-! ## Soundness facts about findClosest (claim C1) -/

/-- Generic foldl invariant: if every step only keeps old elements or adds
elements satisfying `P`, the fold preserves `P` on all members. -/
theorem foldl_mem_invariant {α β : Type} (P : α → Prop) (f : List α → β → List α)
    (hf : ∀ acc b, ∀ x ∈ f acc b, x ∈ acc ∨ P x) :
    ∀ (l : List β) (acc : List α), (∀ x ∈ acc, P x) → ∀ x ∈ l.foldl f acc, P x := by
  intro l
  induction l with
  | nil => intro acc hacc x hx; exact hacc x hx
  | cons b bs ih =>
    intro acc hacc x hx
    exact ih (f acc b) (fun y hy => (hf acc b y hy).elim (hacc y) id) x hx

/-- Every id collected by the bucket scan is a live id of some bucket. -/
theorem findClosestCollect_subset (buckets : List Bucket) (start count : Nat) :
    ∀ x ∈ findClosestCollect buckets start count,
      ∃ b ∈ buckets, x ∈ b.nodes := by
  apply foldl_mem_invariant (f := fun results d =>
      if count ≤ results.length then results
      else
        let i : Int := if d % 2 = 0 then (start : Int) + d else (start : Int) - d
        if i < 0 ∨ (buckets.length : Int) ≤ i then results
        else results ++ (buckets.getD i.toNat default).nodes.take (count - results.length))
  · intro acc d x hx
    by_cases h1 : count ≤ acc.length
    · simp only [if_pos h1] at hx
      exact Or.inl hx
    · simp only [if_neg h1] at hx
      set i : Int := if d % 2 = 0 then (start : Int) + d else (start : Int) - d with hi
      by_cases h2 : i < 0 ∨ (buckets.length : Int) ≤ i
      · simp only [if_pos h2] at hx
        exact Or.inl hx
      · simp only [if_neg h2] at hx
        rcases List.mem_append.mp hx with hmem | hmem
        · exact Or.inl hmem
        · right
          push_neg at h2
          have hlt : i.toNat < buckets.length := by omega
          refine ⟨buckets.getD i.toNat default, ?_, List.mem_of_mem_take hmem⟩
          rw [List.getD_eq_getElem buckets default hlt]
          exact List.getElem_mem hlt
  · intro x hx
    simp at hx

/-- Claim C1 (amended): `findClosest` returns at most `count` ids, each of
which is a live id held in some bucket of the table, sorted in ascending XOR
distance to the target.  (The original closest-K claim fails: see
`findClosest_misses_known_id`.) -/
theorem findClosest_sound (rt : RoutingTable) (t : List Nat) (c : Nat) :
    (rt.findClosest t c).length ≤ c ∧
    rt.findClosest t c ⊆ (rt.buckets.map Bucket.nodes).flatten ∧
    (rt.findClosest t c).Pairwise (fun a b => distLe t a b = true) := by
  refine ⟨List.length_take_le _ _, ?_, ?_⟩
  · intro x hx
    have hx2 : x ∈ findClosestCollect rt.buckets (rt.bucketIdx t) c :=
      List.mem_mergeSort.mp (List.mem_of_mem_take hx)
    obtain ⟨b, hb, hxb⟩ := findClosestCollect_subset rt.buckets (rt.bucketIdx t) c x hx2
    exact List.mem_flatten.mpr ⟨b.nodes, List.mem_map.mpr ⟨b, hb, rfl⟩, hxb⟩
  · exact List.Pairwise.sublist (List.take_sublist _ _)
      (List.sorted_mergeSort (fun a b c₁ => distLe_trans t a b c₁) (distLe_total t) _)

/-- Witness for `findClosest_sound` at a concrete routing table. -/
theorem findClosest_sound_witness :
    (((RoutingTable.init (List.replicate 32 0) 20 0).addOrUpdateNode 0
        (List.replicate 31 0 ++ [1])).1.findClosest (List.replicate 32 5) 3).length ≤ 3 ∧
    ((RoutingTable.init (List.replicate 32 0) 20 0).addOrUpdateNode 0
        (List.replicate 31 0 ++ [1])).1.findClosest (List.replicate 32 5) 3 ⊆
      ((((RoutingTable.init (List.replicate 32 0) 20 0).addOrUpdateNode 0
        (List.replicate 31 0 ++ [1])).1.buckets).map Bucket.nodes).flatten ∧
    (((RoutingTable.init (List.replicate 32 0) 20 0).addOrUpdateNode 0
        (List.replicate 31 0 ++ [1])).1.findClosest (List.replicate 32 5) 3).Pairwise
      (fun a b => distLe (List.replicate 32 5) a b = true) :=
  findClosest_sound _ _ _

/-- Claim C1 (counterexample): with local id `00…00`, after adding the single
node `00…0004` (bucket 253), `findClosest` on target `00…00` (start bucket
255) returns the empty list: the scan only visits bucket indices
`start + even` and `start - odd`, so bucket 253 is never reached and the one
known id is missed entirely. -/
theorem findClosest_misses_known_id :
    (((RoutingTable.init (List.replicate 32 0) 20 0).addOrUpdateNode 0
        (List.replicate 31 0 ++ [4])).1.buckets.getD 253 default).nodes =
      [List.replicate 31 0 ++ [4]] ∧
    ((RoutingTable.init (List.replicate 32 0) 20 0).addOrUpdateNode 0
        (List.replicate 31 0 ++ [4])).1.findClosest (List.replicate 32 0) 20 = [] := by
  constructor
  · decide
  · have h : findClosestCollect
        (((RoutingTable.init (List.replicate 32 0) 20 0).addOrUpdateNode 0
          (List.replicate 31 0 ++ [4])).1).buckets
        ((((RoutingTable.init (List.replicate 32 0) 20 0).addOrUpdateNode 0
          (List.replicate 31 0 ++ [4])).1).bucketIdx (List.replicate 32 0)) 20 = [] := by
      decide
    simp only [RoutingTable.findClosest, h, List.mergeSort_nil, List.take_nil]

/-! ## Routing-table invariants (claims C4, C9) -/

/-- States reachable from a freshly constructed table by the mutating
routing-table operations (`findClosest` does not change node or replacement
sequences). -/
inductive Reachable : RoutingTable → Prop where
  | init (nodeId : List Nat) (k now : Nat) : Reachable (RoutingTable.init nodeId k now)
  | add (rt : RoutingTable) (now : Nat) (id : List Nat) :
      Reachable rt → Reachable (rt.addOrUpdateNode now id).1
  | remove (rt : RoutingTable) (id : List Nat) :
      Reachable rt → Reachable (rt.removeNode id)
  | evict (rt : RoutingTable) (i : Nat) :
      Reachable rt → Reachable (rt.evict i)
  | promote (rt : RoutingTable) (i : Nat) :
      Reachable rt → Reachable (rt.promoteReplacement i)

/-- Per-bucket well-formedness relative to the table: every held id (live or
replacement) maps to this bucket, differs from the local id, and has the
local id length; and the replacement cache has no duplicates. -/
def BucketWF (rt : RoutingTable) (j : Nat) (b : Bucket) : Prop :=
  (∀ x ∈ b.nodes ++ b.replacements,
      rt.bucketIdx x = j ∧ x ≠ rt.nodeId ∧ x.length = rt.nodeId.length) ∧
  b.replacements.Nodup

/-- Table-wide well-formedness. -/
def TableWF (rt : RoutingTable) : Prop :=
  ∀ j (h : j < rt.buckets.length), BucketWF rt j rt.buckets[j]

theorem bucketIdx_setBucket (rt : RoutingTable) (i : Nat) (b : Bucket) (x : List Nat) :
    (rt.setBucket i b).bucketIdx x = rt.bucketIdx x := by
  simp [RoutingTable.bucketIdx, RoutingTable.setBucket]

theorem setBucket_getElemD (rt : RoutingTable) (i : Nat) (b : Bucket)
    (hi : i < rt.buckets.length) :
    ((rt.setBucket i b).buckets[i]?.getD default) = b := by
  show ((rt.buckets.set i b)[i]?.getD default) = b
  rw [List.getElem?_eq_getElem (by simpa using hi), List.getElem_set]
  simp

theorem setBucket_getD_self (rt : RoutingTable) (i : Nat) (b : Bucket)
    (hi : i < rt.buckets.length) :
    (rt.setBucket i b).buckets.getD i default = b := by
  rw [List.getD_eq_getElem?_getD]
  exact setBucket_getElemD rt i b hi

theorem setBucket_wf (rt : RoutingTable) (i : Nat) (b : Bucket)
    (hwf : TableWF rt) (hb : BucketWF rt i b) : TableWF (rt.setBucket i b) := by
  intro j hj
  have hj' : j < rt.buckets.length := by
    simpa [RoutingTable.setBucket] using hj
  have hget : (rt.setBucket i b).buckets[j] = if i = j then b else rt.buckets[j] := by
    simp [RoutingTable.setBucket, List.getElem_set]
  constructor
  · intro x hx
    rw [hget] at hx
    by_cases hij : i = j
    · subst hij
      simp only [if_pos rfl] at hx
      have := hb.1 x hx
      refine ⟨?_, this.2.1, ?_⟩
      · rw [bucketIdx_setBucket]; exact this.1
      · simpa [RoutingTable.setBucket] using this.2.2
    · simp only [if_neg hij] at hx
      have := (hwf j hj').1 x hx
      refine ⟨?_, this.2.1, ?_⟩
      · rw [bucketIdx_setBucket]; exact this.1
      · simpa [RoutingTable.setBucket] using this.2.2
  · rw [hget]
    by_cases hij : i = j
    · simp only [if_pos hij]; exact hb.2
    · simp only [if_neg hij]; exact (hwf j hj').2

theorem getD_wf (rt : RoutingTable) (i : Nat) (hwf : TableWF rt) :
    BucketWF rt i (rt.buckets.getD i default) := by
  by_cases hi : i < rt.buckets.length
  · rw [List.getD_eq_getElem rt.buckets default hi]
    exact hwf i hi
  · rw [List.getD_eq_getElem?_getD, List.getElem?_eq_none (by omega), Option.getD_none]
    constructor
    · intro x hx
      simp [default] at hx
    · simp [default]

/-- Claim C4 (amended): every reachable routing-table state satisfies: each
held id (live or replacement) maps to the bucket that holds it, differs from
the local id, and has the local id length; and each replacement cache is free
of duplicates.  (Live/replacement disjointness and freedom from duplicates in
the live list fail on reachable states: see
`routing_disjointness_violated`.) -/
theorem reachable_wf (rt : RoutingTable) (h : Reachable rt) : TableWF rt := by
  induction h with
  | init nodeId k now =>
    intro j hj
    have : (RoutingTable.init nodeId k now).buckets[j] =
        { nodes := [], replacements := [], lastUsed := now } := by
      simp [RoutingTable.init]
    rw [this]
    exact ⟨by intro x hx; simp at hx, by simp⟩
  | add rt now id _ ih =>
    show TableWF (rt.addOrUpdateNode now id).1
    simp only [RoutingTable.addOrUpdateNode]
    split
    · exact ih
    next hlen =>
      split
      · exact ih
      next hself =>
        have hbwf : BucketWF rt (rt.bucketIdx id) (rt.buckets.getD (rt.bucketIdx id) default) :=
          getD_wf rt (rt.bucketIdx id) ih
        split
        next hmem =>
          refine setBucket_wf rt _ _ ih ⟨?_, hbwf.2⟩
          intro x hx
          simp only [List.mem_append] at hx
          rcases hx with (hx | hx) | hx
          · exact hbwf.1 x (List.mem_append.mpr (Or.inl (List.mem_of_mem_erase hx)))
          · have hxid : x = id := by simpa using hx
            subst hxid
            exact hbwf.1 x (List.mem_append.mpr (Or.inl hmem))
          · exact hbwf.1 x (List.mem_append.mpr (Or.inr hx))
        next hmem =>
          split
          next hroom =>
            refine setBucket_wf rt _ _ ih ⟨?_, hbwf.2⟩
            intro x hx
            simp only [List.mem_append] at hx
            rcases hx with (hx | hx) | hx
            · exact hbwf.1 x (List.mem_append.mpr (Or.inl hx))
            · have hxid : x = id := by simpa using hx
              subst hxid
              exact ⟨rfl, hself, by omega⟩
            · exact hbwf.1 x (List.mem_append.mpr (Or.inr hx))
          next hroom =>
            refine setBucket_wf rt _ _ ih ⟨?_, ?_⟩
            · intro x hx
              simp only [List.mem_append] at hx
              rcases hx with hx | hx
              · exact hbwf.1 x (List.mem_append.mpr (Or.inl hx))
              · have hx' : x ∈ (rt.buckets.getD (rt.bucketIdx id) default).replacements ∨ x = id := by
                  split at hx
                  · exact Or.inl hx
                  · split at hx
                    · rcases List.mem_append.mp ((List.tail_sublist _).mem hx) with h1 | h1
                      · exact Or.inl h1
                      · exact Or.inr (by simpa using h1)
                    · rcases List.mem_append.mp hx with h1 | h1
                      · exact Or.inl h1
                      · exact Or.inr (by simpa using h1)
                rcases hx' with hx' | hx'
                · exact hbwf.1 x (List.mem_append.mpr (Or.inr hx'))
                · subst hx'
                  exact ⟨rfl, hself, by omega⟩
            · split
              next hrep => exact hbwf.2
              next hrep =>
                have hnd : ((rt.buckets.getD (rt.bucketIdx id) default).replacements ++ [id]).Nodup := by
                  rw [List.nodup_append]
                  refine ⟨hbwf.2, List.nodup_singleton id, ?_⟩
                  intro a ha hb
                  have : a = id := by simpa using hb
                  exact hrep (this ▸ ha)
                split
                · exact (List.tail_sublist _).nodup hnd
                · exact hnd
  | remove rt id _ ih =>
    show TableWF (rt.removeNode id)
    simp only [RoutingTable.removeNode]
    have hbwf : BucketWF rt (rt.bucketIdx id) (rt.buckets.getD (rt.bucketIdx id) default) :=
      getD_wf rt (rt.bucketIdx id) ih
    refine setBucket_wf rt _ _ ih ⟨?_, hbwf.2⟩
    intro x hx
    simp only [List.mem_append] at hx
    rcases hx with hx | hx
    · exact hbwf.1 x (List.mem_append.mpr (Or.inl (List.mem_of_mem_erase hx)))
    · exact hbwf.1 x (List.mem_append.mpr (Or.inr hx))
  | evict rt i _ ih =>
    show TableWF (rt.evict i)
    simp only [RoutingTable.evict]
    have hbwf : BucketWF rt i (rt.buckets.getD i default) := getD_wf rt i ih
    refine setBucket_wf rt _ _ ih ⟨?_, hbwf.2⟩
    intro x hx
    simp only [List.mem_append] at hx
    rcases hx with hx | hx
    · exact hbwf.1 x (List.mem_append.mpr (Or.inl ((List.tail_sublist _).mem hx)))
    · exact hbwf.1 x (List.mem_append.mpr (Or.inr hx))
  | promote rt i _ ih =>
    show TableWF (rt.promoteReplacement i)
    simp only [RoutingTable.promoteReplacement]
    have hbwf : BucketWF rt i (rt.buckets.getD i default) := getD_wf rt i ih
    cases hrep : (rt.buckets.getD i default).replacements with
    | nil =>
      exact setBucket_wf rt i _ ih (getD_wf rt i ih)
    | cons r rs =>
      refine setBucket_wf rt _ _ ih ⟨?_, ?_⟩
      · intro x hx
        simp only [List.mem_append] at hx
        rcases hx with (hx | hx) | hx
        · exact hbwf.1 x (List.mem_append.mpr (Or.inl hx))
        · have hxr : x = r := by simpa using hx
          refine hbwf.1 x (List.mem_append.mpr (Or.inr ?_))
          rw [hrep, hxr]
          exact List.mem_cons_self r rs
        · exact hbwf.1 x (List.mem_append.mpr (Or.inr (hrep ▸ List.mem_cons_of_mem r hx)))
      · have h2 := hbwf.2
        rw [hrep] at h2
        exact h2.of_cons

/-- Witness for `reachable_wf` at a freshly constructed table. -/
theorem reachable_wf_witness : TableWF (RoutingTable.init (List.replicate 32 0) 20 0) :=
  reachable_wf _ (Reachable.init _ _ _)

/-- Claim C4 (counterexample): with local id `00…00`, add the 21 ids
`00…00 80` through `00…00 94` (hex last byte); all land in bucket 248, the
first 20 as live nodes, the 21st in the replacement cache.  Evict the bucket
head, then add the 21st id again: it is appended to the live list while still
in the replacement cache, violating live/replacement disjointness.  A
subsequent `promoteReplacement` then puts it into the live list a second
time, violating within-bucket uniqueness. -/
theorem routing_disjointness_violated :
    ((((((((List.range 21).map (fun j => List.replicate 31 0 ++ [128 + j])).foldl
          (fun rt id => (rt.addOrUpdateNode 0 id).1)
          (RoutingTable.init (List.replicate 32 0) 20 0)).evict 248).addOrUpdateNode 0
          (List.replicate 31 0 ++ [148])).1).buckets.getD 248 default).nodes.count
        (List.replicate 31 0 ++ [148]) = 1) ∧
    ((((((((List.range 21).map (fun j => List.replicate 31 0 ++ [128 + j])).foldl
          (fun rt id => (rt.addOrUpdateNode 0 id).1)
          (RoutingTable.init (List.replicate 32 0) 20 0)).evict 248).addOrUpdateNode 0
          (List.replicate 31 0 ++ [148])).1).buckets.getD 248 default).replacements.count
        (List.replicate 31 0 ++ [148]) = 1) ∧
    (((((((((List.range 21).map (fun j => List.replicate 31 0 ++ [128 + j])).foldl
          (fun rt id => (rt.addOrUpdateNode 0 id).1)
          (RoutingTable.init (List.replicate 32 0) 20 0)).evict 248).addOrUpdateNode 0
          (List.replicate 31 0 ++ [148])).1).promoteReplacement 248).buckets.getD 248 default).nodes.count
        (List.replicate 31 0 ++ [148]) = 2) := by
  decide

theorem promote_getD_len (rt : RoutingTable) (i : Nat) (hi : i < rt.buckets.length) :
    ((rt.promoteReplacement i).buckets.getD i default).nodes.length =
      (rt.buckets.getD i default).nodes.length +
        (if (rt.buckets.getD i default).replacements = [] then 0 else 1) := by
  simp only [RoutingTable.promoteReplacement]
  cases hrep : (rt.buckets.getD i default).replacements with
  | nil =>
    simp [setBucket_getElemD rt i _ hi]
  | cons r rs =>
    simp [setBucket_getElemD rt i _ hi]

theorem evict_getD (rt : RoutingTable) (i : Nat) (hi : i < rt.buckets.length) :
    (rt.evict i).buckets.getD i default =
      { rt.buckets.getD i default with nodes := (rt.buckets.getD i default).nodes.tail } := by
  simp only [RoutingTable.evict]
  exact setBucket_getD_self rt i _ hi

theorem evict_buckets_length (rt : RoutingTable) (i : Nat) :
    (rt.evict i).buckets.length = rt.buckets.length := by
  simp [RoutingTable.evict, RoutingTable.setBucket]

/-- Claim C9 (amended): provided bucket `i` is nonempty,
`evict i; promoteReplacement i` leaves the live length unchanged iff the
replacement cache was nonempty at the call.  (On an empty bucket the
unrestricted iff fails: see `evict_promote_iff_fails_on_empty`.) -/
theorem evict_promote_length (rt : RoutingTable) (i : Nat)
    (h : (rt.buckets.getD i default).nodes ≠ []) :
    ((((rt.evict i).promoteReplacement i).buckets.getD i default).nodes.length =
        (rt.buckets.getD i default).nodes.length) ↔
      (rt.buckets.getD i default).replacements ≠ [] := by
  have hi : i < rt.buckets.length := by
    by_contra hge
    rw [List.getD_eq_getElem?_getD, List.getElem?_eq_none (by omega)] at h
    simp [default] at h
  have hlen0 : 0 < (rt.buckets.getD i default).nodes.length := List.length_pos.mpr h
  have hi2 : i < (rt.evict i).buckets.length := by
    rw [evict_buckets_length]; exact hi
  rw [promote_getD_len (rt.evict i) i hi2, evict_getD rt i hi]
  have hpn : ∀ (b : Bucket) (v : List (List Nat)),
      ({ b with nodes := v } : Bucket).nodes = v := fun _ _ => rfl
  have hpr : ∀ (b : Bucket) (v : List (List Nat)),
      ({ b with nodes := v } : Bucket).replacements = b.replacements := fun _ _ => rfl
  rw [hpn, hpr, List.length_tail]
  by_cases hrep : (rt.buckets.getD i default).replacements = []
  · rw [if_pos hrep]
    constructor
    · intro h2; omega
    · intro h2; exact absurd hrep h2
  · rw [if_neg hrep]
    constructor
    · intro _; exact hrep
    · intro _; omega

/-- Witness for `evict_promote_length` on a table holding one live node and
an empty replacement cache. -/
theorem evict_promote_length_witness :
    ((((RoutingTable.init (List.replicate 32 0) 20 0).addOrUpdateNode 0
        (List.replicate 31 0 ++ [1])).1.buckets.getD 255 default).nodes ≠ []) ∧
    (((((((RoutingTable.init (List.replicate 32 0) 20 0).addOrUpdateNode 0
        (List.replicate 31 0 ++ [1])).1.evict 255).promoteReplacement 255).buckets.getD 255
          default).nodes.length =
        ((((RoutingTable.init (List.replicate 32 0) 20 0).addOrUpdateNode 0
        (List.replicate 31 0 ++ [1])).1.buckets.getD 255 default).nodes.length)) ↔
      ((((RoutingTable.init (List.replicate 32 0) 20 0).addOrUpdateNode 0
        (List.replicate 31 0 ++ [1])).1.buckets.getD 255 default).replacements ≠ [])) :=
  ⟨by decide, evict_promote_length _ 255 (by decide)⟩

/-- Claim C9 (counterexample): on a fresh table, bucket 0 is empty; after
`evict 0; promoteReplacement 0` the live length is unchanged (0 = 0) even
though the replacement cache was empty, refuting the unrestricted iff. -/
theorem evict_promote_iff_fails_on_empty :
    ¬ (((((RoutingTable.init (List.replicate 32 0) 20 0).evict 0).promoteReplacement
            0).buckets.getD 0 default).nodes.length =
          (((RoutingTable.init (List.replicate 32 0) 20 0).buckets.getD 0
            default).nodes.length) ↔
        ((RoutingTable.init (List.replicate 32 0) 20 0).buckets.getD 0
            default).replacements ≠ []) := by
  decide

/-! ## Wire codec (`src/peer/utils.js`, latest revision) -/

def NODE_ID_LEN : Nat := 32
def MSG_PING : Nat := 0x01
def MSG_PONG : Nat := 0x02
def MSG_FIND_NODE : Nat := 0x03
def MSG_FIND_NODE_RESPONSE : Nat := 0x04
def MSG_STORE : Nat := 0x05
def MSG_FIND_VALUE : Nat := 0x06
def MSG_FIND_VALUE_RESPONSE : Nat := 0x07

/-- Modelled from the spec: the revision of `constants.js` that defines the
STORE_ACK code imported by utils.js and peer-node.js is not among the
sources; the byte value is the one given in the spec message table. -/
def MSG_STORE_ACK : Nat := 0x08

/-- Modelled from the spec: HAS_VALUE type code, from the spec message
table (the defining `constants.js` revision is not among the sources). -/
def MSG_HAS_VALUE : Nat := 0x09

/-- Modelled from the spec: HAS_VALUE_RESPONSE type code, from the spec
message table (the defining `constants.js` revision is not among the
sources). -/
def MSG_HAS_VALUE_RESPONSE : Nat := 0x0A

/-- Model of `Buffer.alloc(n)`: `n` zero bytes. -/
def bufAlloc (n : Nat) : List Nat := List.replicate n 0

/-- Model of `src.copy(target, tStart)`: overwrite
`min src.length (target.length - tStart)` bytes of `target` starting at
`tStart`; the target length never changes. -/
def bufCopy (target src : List Nat) (tStart : Nat) : List Nat :=
  target.take tStart ++ src.take (target.length - tStart) ++
    target.drop (tStart + min src.length (target.length - tStart))

/-- Model of `buf[i] = v`: byte assignment wraps modulo 256. -/
def bufSet (target : List Nat) (i v : Nat) : List Nat := target.set i (v % 256)

/-- Big-endian bytes written by `buf.writeUInt32BE(n, _)` (callers never pass
values at or above 2^32, where JS would throw instead). -/
def u32be (n : Nat) : List Nat :=
  [n / 2 ^ 24 % 256, n / 2 ^ 16 % 256, n / 2 ^ 8 % 256, n % 256]

/-- Model of `buf.readUInt32BE(off)` for in-range offsets (the JS method
throws when `off + 4` exceeds the length; decoders model that as `none`
before reading). -/
def readU32BE (buf : List Nat) (off : Nat) : Nat :=
  buf.getD off 0 * 2 ^ 24 + buf.getD (off + 1) 0 * 2 ^ 16 +
    buf.getD (off + 2) 0 * 2 ^ 8 + buf.getD (off + 3) 0

/-- Model of `buf.subarray(s, e)`: the bytes in `[s, e)`, clamped to the
buffer bounds. -/
def subarray (buf : List Nat) (s e : Nat) : List Nat := (buf.drop s).take (e - s)

theorem bufCopy_exact (pre mid post src : List Nat) (ts : Nat)
    (hts : ts = pre.length) (h : mid.length = src.length) :
    bufCopy (pre ++ mid ++ post) src ts = pre ++ src ++ post := by
  subst hts
  unfold bufCopy
  have hlen : (pre ++ mid ++ post).length = pre.length + src.length + post.length := by
    simp only [List.length_append, h]
  have h1 : (pre ++ mid ++ post).take pre.length = pre := by
    rw [List.append_assoc]
    exact List.take_left pre (mid ++ post)
  have h2 : src.take ((pre ++ mid ++ post).length - pre.length) = src := by
    apply List.take_of_length_le
    omega
  have h3 : min src.length ((pre ++ mid ++ post).length - pre.length) = src.length := by
    omega
  have h4 : (pre ++ mid ++ post).drop (pre.length + src.length) = post := by
    have hpm : pre.length + src.length = (pre ++ mid).length := by
      simp [h]
    rw [hpm]
    exact List.drop_left (pre ++ mid) post
  rw [h1, h2, h3, h4]

theorem subarray_middle (pre mid post : List Nat) (s e : Nat)
    (hs : s = pre.length) (he : e = pre.length + mid.length) :
    subarray (pre ++ mid ++ post) s e = mid := by
  subst hs he
  unfold subarray
  rw [List.append_assoc, List.drop_left]
  have h1 : pre.length + mid.length - pre.length = mid.length := by omega
  rw [h1, List.take_left]

theorem getD_append_right (l1 l2 : List Nat) (k : Nat) :
    (l1 ++ l2).getD (l1.length + k) 0 = l2.getD k 0 := by
  rw [List.getD_eq_getElem?_getD, List.getElem?_append_right (by omega)]
  simp [List.getD_eq_getElem?_getD]

theorem readU32BE_exact (pre rest : List Nat) (n : Nat) (hn : n < 2 ^ 32) (off : Nat)
    (hoff : off = pre.length) :
    readU32BE (pre ++ (u32be n ++ rest)) off = n := by
  subst hoff
  unfold readU32BE u32be
  have g0 : (pre ++ ((n / 2 ^ 24 % 256) :: ((n / 2 ^ 16 % 256) :: ((n / 2 ^ 8 % 256) ::
      ((n % 256) :: rest))))).getD pre.length 0 = n / 2 ^ 24 % 256 := by
    have := getD_append_right pre ((n / 2 ^ 24 % 256) :: ((n / 2 ^ 16 % 256) ::
      ((n / 2 ^ 8 % 256) :: ((n % 256) :: rest)))) 0
    simpa using this
  have g1 : (pre ++ ((n / 2 ^ 24 % 256) :: ((n / 2 ^ 16 % 256) :: ((n / 2 ^ 8 % 256) ::
      ((n % 256) :: rest))))).getD (pre.length + 1) 0 = n / 2 ^ 16 % 256 := by
    have := getD_append_right pre ((n / 2 ^ 24 % 256) :: ((n / 2 ^ 16 % 256) ::
      ((n / 2 ^ 8 % 256) :: ((n % 256) :: rest)))) 1
    simpa using this
  have g2 : (pre ++ ((n / 2 ^ 24 % 256) :: ((n / 2 ^ 16 % 256) :: ((n / 2 ^ 8 % 256) ::
      ((n % 256) :: rest))))).getD (pre.length + 2) 0 = n / 2 ^ 8 % 256 := by
    have := getD_append_right pre ((n / 2 ^ 24 % 256) :: ((n / 2 ^ 16 % 256) ::
      ((n / 2 ^ 8 % 256) :: ((n % 256) :: rest)))) 2
    simpa using this
  have g3 : (pre ++ ((n / 2 ^ 24 % 256) :: ((n / 2 ^ 16 % 256) :: ((n / 2 ^ 8 % 256) ::
      ((n % 256) :: rest))))).getD (pre.length + 3) 0 = n % 256 := by
    have := getD_append_right pre ((n / 2 ^ 24 % 256) :: ((n / 2 ^ 16 % 256) ::
      ((n / 2 ^ 8 % 256) :: ((n % 256) :: rest)))) 3
    simpa using this
  simp only [List.cons_append, List.nil_append] at g0 g1 g2 g3 ⊢
  rw [g0, g1, g2, g3]
  omega

/-! ## Records and their JSON payload -/

/-- A stored record, as built in `storeValue`: base64 text of the value in
`data`, the publish timestamp `ts` (`Date.now()`), and the publisher id as a
hex string in `pub`.  The two text fields are lists of character codes. -/
structure Record where
  data : List Nat
  ts : Nat
  pub : List Nat
  deriving Repr, DecidableEq

/-- Little-endian decimal digit characters via structural fuel recursion
(the fuel never runs out when it starts at `n`, since `n / 10 < n`). -/
def decDigitsGo : Nat → Nat → List Nat
  | _, 0 => []
  | 0, _ + 1 => []
  | f + 1, m + 1 => ((m + 1) % 10 + 48) :: decDigitsGo f ((m + 1) / 10)

/-- Little-endian decimal digit characters of `n` (empty for 0). -/
def decDigitsAux (n : Nat) : List Nat := decDigitsGo n n

/-- Decimal character codes of `n`, as produced by `JSON.stringify` for a
nonnegative integer. -/
def natToDec (n : Nat) : List Nat :=
  if n = 0 then [48] else (decDigitsAux n).reverse

/-- Character codes of the text `\x7b"data":"` opening the record object. -/
def jsonHead : List Nat := [123, 34, 100, 97, 116, 97, 34, 58, 34]

/-- Character codes of `,"ts":` (after the closing quote of the data). -/
def jsonTs : List Nat := [44, 34, 116, 115, 34, 58]

/-- Character codes of `,"pub":"`. -/
def jsonPub : List Nat := [44, 34, 112, 117, 98, 34, 58, 34]

/-- Output of `JSON.stringify` on a record object whose text fields need no
escaping (see `RecordWF`): the exact character sequence
`\x7b"data":"…","ts":…,"pub":"…"\x7d`. -/
def jsonRecord (r : Record) : List Nat :=
  jsonHead ++ r.data ++ [34] ++ jsonTs ++ natToDec r.ts ++ jsonPub ++ r.pub ++ [34, 125]

/-- Records whose text fields contain no quote (34), no backslash (92) and no
control characters, so that `JSON.stringify` emits them verbatim.  The data
field is base64 text and the pub field hex text in every producer, so this
holds for every record the system builds. -/
def RecordWF (r : Record) : Prop :=
  (∀ c ∈ r.data, c ≠ 34 ∧ c ≠ 92 ∧ 32 ≤ c) ∧
  (∀ c ∈ r.pub, c ≠ 34 ∧ c ≠ 92 ∧ 32 ≤ c)

/-- Consume an expected literal character sequence. -/
def expectLit : List Nat → List Nat → Option (List Nat)
  | [], s => some s
  | _ :: _, [] => none
  | p :: ps, c :: cs => if c = p then expectLit ps cs else none

/-- Consume characters up to and including the next quote. -/
def takeUntilQuote : List Nat → Option (List Nat × List Nat)
  | [] => none
  | c :: cs =>
    if c = 34 then some ([], cs)
    else (takeUntilQuote cs).map (fun pr => (c :: pr.1, pr.2))

def isDigitCode (c : Nat) : Bool := decide (48 ≤ c ∧ c ≤ 57)

def digitsToNat (ds : List Nat) : Nat := ds.foldl (fun acc d => acc * 10 + (d - 48)) 0

/-- Restriction of `JSON.parse` to the canonical record text emitted by
`JSON.stringify` on `\x7bdata, ts, pub\x7d` objects: on every payload arising in
the round-trip statements below the general JSON parser and this restricted
one agree; all other inputs are conservatively rejected. -/
def parseRecord (s : List Nat) : Option Record := do
  let s ← expectLit jsonHead s
  let (dataStr, s) ← takeUntilQuote s
  let s ← expectLit jsonTs s
  let ds := s.takeWhile isDigitCode
  if ds.isEmpty then none
  else
    let ts := digitsToNat ds
    let s := s.dropWhile isDigitCode
    let s ← expectLit jsonPub s
    let (pubStr, s) ← takeUntilQuote s
    let s ← expectLit [125] s
    if s.isEmpty then some { data := dataStr, ts := ts, pub := pubStr } else none

theorem expectLit_append (p s : List Nat) : expectLit p (p ++ s) = some s := by
  induction p with
  | nil => rfl
  | cons c cs ih => simp [expectLit, ih]

theorem takeUntilQuote_append (d rest : List Nat) (hd : ∀ c ∈ d, c ≠ 34) :
    takeUntilQuote (d ++ 34 :: rest) = some (d, rest) := by
  induction d with
  | nil => simp [takeUntilQuote]
  | cons c cs ih =>
    have hc : c ≠ 34 := hd c (List.mem_cons_self c cs)
    simp only [List.cons_append, takeUntilQuote, if_neg hc, List.append_eq]
    rw [ih (fun x hx => hd x (List.mem_cons_of_mem c hx))]
    rfl

theorem foldr_decDigitsGo :
    ∀ (fuel n : Nat), n ≤ fuel →
      (decDigitsGo fuel n).foldr (fun d acc => acc * 10 + (d - 48)) 0 = n := by
  intro fuel
  induction fuel with
  | zero =>
    intro n hn
    have : n = 0 := by omega
    subst this
    rfl
  | succ f ih =>
    intro n hn
    cases n with
    | zero => rfl
    | succ m =>
      have hdiv : (m + 1) / 10 ≤ f := by
        have := Nat.div_lt_self (Nat.succ_pos m) (by norm_num : 1 < 10)
        omega
      simp only [decDigitsGo, List.foldr_cons, ih ((m + 1) / 10) hdiv]
      omega

theorem foldr_decDigitsAux (n : Nat) :
    (decDigitsAux n).foldr (fun d acc => acc * 10 + (d - 48)) 0 = n :=
  foldr_decDigitsGo n n (Nat.le_refl n)

theorem digitsToNat_natToDec (n : Nat) : digitsToNat (natToDec n) = n := by
  unfold natToDec
  by_cases h : n = 0
  · simp [h, digitsToNat]
  · rw [if_neg h]
    unfold digitsToNat
    rw [List.foldl_reverse]
    exact foldr_decDigitsAux n

theorem decDigitsGo_digits :
    ∀ (fuel n : Nat), ∀ d ∈ decDigitsGo fuel n, isDigitCode d := by
  intro fuel
  induction fuel with
  | zero =>
    intro n d hd
    cases n <;> simp [decDigitsGo] at hd
  | succ f ih =>
    intro n d hd
    cases n with
    | zero => simp [decDigitsGo] at hd
    | succ m =>
      simp only [decDigitsGo, List.mem_cons] at hd
      rcases hd with h1 | h1
      · subst h1
        simp only [isDigitCode, decide_eq_true_eq]
        omega
      · exact ih ((m + 1) / 10) d h1

theorem decDigitsAux_digits (n : Nat) : ∀ d ∈ decDigitsAux n, isDigitCode d :=
  decDigitsGo_digits n n

theorem natToDec_digits (n : Nat) : ∀ d ∈ natToDec n, isDigitCode d := by
  unfold natToDec
  by_cases h : n = 0
  · simp [h, isDigitCode]
  · rw [if_neg h]
    intro d hd
    exact decDigitsAux_digits n d (List.mem_reverse.mp hd)

theorem natToDec_ne_nil (n : Nat) : natToDec n ≠ [] := by
  unfold natToDec
  by_cases h : n = 0
  · simp [h]
  · rw [if_neg h]
    intro hcontra
    have h2 : decDigitsAux n = [] := by
      have := congrArg List.reverse hcontra
      simpa using this
    obtain ⟨m, rfl⟩ := Nat.exists_eq_succ_of_ne_zero h
    simp [decDigitsAux, decDigitsGo] at h2

theorem takeWhile_append_stop (p : Nat → Bool) (l : List Nat) (c : Nat) (r : List Nat)
    (hl : ∀ x ∈ l, p x) (hc : ¬ p c) :
    (l ++ c :: r).takeWhile p = l ∧ (l ++ c :: r).dropWhile p = c :: r := by
  induction l with
  | nil =>
    simp [List.takeWhile_cons, List.dropWhile_cons, hc]
  | cons x xs ih =>
    have hx : p x := hl x (List.mem_cons_self x xs)
    have ihx := ih (fun y hy => hl y (List.mem_cons_of_mem x hy))
    simp [List.takeWhile_cons, List.dropWhile_cons, hx, ihx.1, ihx.2]

/-- Round trip of the record payload: parsing the canonical JSON text of a
well-formed record restores it exactly. -/
theorem parseRecord_jsonRecord (r : Record) (h : RecordWF r) :
    parseRecord (jsonRecord r) = some r := by
  have hdata : ∀ c ∈ r.data, c ≠ 34 := fun c hc => (h.1 c hc).1
  have hpub : ∀ c ∈ r.pub, c ≠ 34 := fun c hc => (h.2 c hc).1
  have e1 : jsonRecord r = jsonHead ++ (r.data ++ 34 :: (jsonTs ++ (natToDec r.ts ++
      (jsonPub ++ (r.pub ++ [34, 125]))))) := by
    simp [jsonRecord]
  have e2 : takeUntilQuote (r.data ++ 34 :: (jsonTs ++ (natToDec r.ts ++
      (jsonPub ++ (r.pub ++ [34, 125]))))) =
      some (r.data, jsonTs ++ (natToDec r.ts ++ (jsonPub ++ (r.pub ++ [34, 125])))) :=
    takeUntilQuote_append _ _ hdata
  have e3 : natToDec r.ts ++ (jsonPub ++ (r.pub ++ [34, 125])) =
      natToDec r.ts ++ 44 :: ([34, 112, 117, 98, 34, 58, 34] ++ (r.pub ++ [34, 125])) := by
    simp [jsonPub]
  have hsplit := takeWhile_append_stop isDigitCode (natToDec r.ts) 44
    ([34, 112, 117, 98, 34, 58, 34] ++ (r.pub ++ [34, 125]))
    (natToDec_digits r.ts) (by decide)
  have h5 : (natToDec r.ts).isEmpty = false := by
    cases hne : natToDec r.ts with
    | nil => exact absurd hne (natToDec_ne_nil r.ts)
    | cons a as => rfl
  have e5 : (44 : Nat) :: ([34, 112, 117, 98, 34, 58, 34] ++ (r.pub ++ [34, 125])) =
      jsonPub ++ (r.pub ++ [34, 125]) := by
    simp [jsonPub]
  have e4 : takeUntilQuote (r.pub ++ [34, 125]) = some (r.pub, [125]) := by
    have h125 : r.pub ++ [34, 125] = r.pub ++ 34 :: [125] := by simp
    rw [h125]
    exact takeUntilQuote_append _ _ hpub
  have e6 : expectLit [125] [125] = some [] := by decide
  simp only [parseRecord, e1, expectLit_append, Option.bind_eq_bind, Option.some_bind]
  rw [e2]
  simp only [Option.some_bind, expectLit_append]
  rw [e3]
  simp only [hsplit.1, hsplit.2, h5, Bool.false_eq_true, if_false, digitsToNat_natToDec]
  rw [e5]
  simp only [expectLit_append, Option.some_bind, e4, e6, List.isEmpty_nil, if_true]

/-! ## Message encoders and decoders (part of utils.js).  Encoders build a
zero-filled buffer and overwrite regions exactly as the JS does; decoders
return `none` exactly where the JS decoder throws. -/

/-- Translation of `encodePing`. -/
def encodePing (nodeId : List Nat) : List Nat := MSG_PING :: nodeId

/-- Translation of `encodePong`. -/
def encodePong (nodeId : List Nat) : List Nat := MSG_PONG :: nodeId

/-- Translation of `decodeMessage`: reject an empty frame, else split off the
type byte. -/
def decodeMessage (buf : List Nat) : Option (Nat × List Nat) :=
  if buf.length < 1 then none else some (buf.getD 0 0, buf.drop 1)

/-- Translation of `encodeFindNode`; `none` models the thrown error for a
message id that is not 8 bytes. -/
def encodeFindNode (messageId targetNodeId : List Nat) : Option (List Nat) :=
  if messageId.length ≠ 8 then none
  else
    let buf := bufSet (bufAlloc (1 + 8 + NODE_ID_LEN)) 0 MSG_FIND_NODE
    let buf := bufCopy buf messageId 1
    some (bufCopy buf targetNodeId 9)

/-- Translation of `encodeFindNodeResponse`: type byte, message id, a one-byte
count, then the node ids copied at 32-byte strides. -/
def encodeFindNodeResponse (messageId : List Nat) (nodeIds : List (List Nat)) :
    Option (List Nat) :=
  if messageId.length ≠ 8 then none
  else
    let count := nodeIds.length
    let buf := bufSet (bufAlloc (1 + 8 + 1 + count * NODE_ID_LEN)) 0 MSG_FIND_NODE_RESPONSE
    let buf := bufCopy buf messageId 1
    let buf := bufSet buf 9 count
    some ((nodeIds.enum).foldl (fun b pr => bufCopy b pr.2 (10 + pr.1 * NODE_ID_LEN)) buf)

/-- Translation of `decodeFindNode` (never throws: subarrays clamp). -/
def decodeFindNode (buf : List Nat) : List Nat × List Nat :=
  (subarray buf 1 9, subarray buf 9 (9 + NODE_ID_LEN))

/-- Translation of `decodeFindNodeResponse` (never throws). -/
def decodeFindNodeResponse (buf : List Nat) : List Nat × List (List Nat) :=
  (subarray buf 1 9,
    (List.range (buf.getD 9 0)).map (fun i =>
      subarray buf (10 + i * NODE_ID_LEN) (10 + (i + 1) * NODE_ID_LEN)))

/-- Translation of `encodeStore`: type, message id, key, 4-byte big-endian
JSON length, JSON record text. -/
def encodeStore (messageId key : List Nat) (record : Record) : List Nat :=
  let valueBuf := jsonRecord record
  let buf := bufSet (bufAlloc (1 + 8 + NODE_ID_LEN + 4 + valueBuf.length)) 0 MSG_STORE
  let buf := bufCopy buf messageId 1
  let buf := bufCopy buf key 9
  let buf := bufCopy buf (u32be valueBuf.length) (9 + NODE_ID_LEN)
  bufCopy buf valueBuf (13 + NODE_ID_LEN)

/-- Translation of `decodeStore`: `none` models both the `readUInt32BE`
RangeError on a frame shorter than 45 bytes and a `JSON.parse` failure. -/
def decodeStore (buf : List Nat) : Option (List Nat × List Nat × Record) :=
  let messageId := subarray buf 1 9
  let key := subarray buf 9 (9 + NODE_ID_LEN)
  if buf.length < 9 + NODE_ID_LEN + 4 then none
  else
    let len := readU32BE buf (9 + NODE_ID_LEN)
    (parseRecord (subarray buf (13 + NODE_ID_LEN) (13 + NODE_ID_LEN + len))).map
      (fun r => (messageId, key, r))

/-- Translation of `encodeFindValue` (no message id length check here). -/
def encodeFindValue (messageId key : List Nat) : List Nat :=
  let buf := bufSet (bufAlloc (1 + 8 + NODE_ID_LEN)) 0 MSG_FIND_VALUE
  let buf := bufCopy buf messageId 1
  bufCopy buf key 9

/-- Translation of `decodeFindValue`: the only buffer decoder with an explicit
length check, rejecting frames shorter than 41 bytes. -/
def decodeFindValue (buf : List Nat) : Option (List Nat × List Nat) :=
  if buf.length < 1 + 8 + NODE_ID_LEN then none
  else some (subarray buf 1 9, subarray buf 9 (9 + NODE_ID_LEN))

/-- Decoded shape of a FIND_VALUE_RESPONSE: the found form carries a record,
the not-found form carries node ids. -/
inductive FindValueResult where
  | found (messageId : List Nat) (record : Record)
  | notFound (messageId : List Nat) (nodes : List (List Nat))
  deriving Repr, DecidableEq

/-- Translation of `encodeFindValueResponse`: found flag 1 plus JSON record,
or found flag 0 plus a counted node list. -/
def encodeFindValueResponse (messageId : List Nat) (record : Option Record)
    (nodes : List (List Nat)) : List Nat :=
  match record with
  | some r =>
    let valueBuf := jsonRecord r
    let buf := bufSet (bufAlloc (1 + 8 + 1 + 4 + valueBuf.length)) 0 MSG_FIND_VALUE_RESPONSE
    let buf := bufCopy buf messageId 1
    let buf := bufSet buf 9 1
    let buf := bufCopy buf (u32be valueBuf.length) 10
    bufCopy buf valueBuf 14
  | none =>
    let buf := bufSet (bufAlloc (1 + 8 + 1 + 1 + nodes.length * NODE_ID_LEN)) 0
      MSG_FIND_VALUE_RESPONSE
    let buf := bufCopy buf messageId 1
    let buf := bufSet buf 9 0
    let buf := bufSet buf 10 nodes.length
    (nodes.enum).foldl (fun b pr => bufCopy b pr.2 (11 + pr.1 * NODE_ID_LEN)) buf

/-- Translation of `decodeFindValueResponse`: `none` models the
`readUInt32BE(10)` RangeError on a found-form frame shorter than 14 bytes and
`JSON.parse` failures. -/
def decodeFindValueResponse (buf : List Nat) : Option FindValueResult :=
  let messageId := subarray buf 1 9
  if buf.getD 9 0 = 1 then
    if buf.length < 14 then none
    else
      let len := readU32BE buf 10
      (parseRecord (subarray buf 14 (14 + len))).map (fun r => .found messageId r)
  else
    some (.notFound messageId
      ((List.range (buf.getD 10 0)).map (fun i =>
        subarray buf (11 + i * NODE_ID_LEN) (11 + (i + 1) * NODE_ID_LEN))))

/-- Translation of `encodeStoreAck` (`Buffer.concat`). -/
def encodeStoreAck (messageId : List Nat) : List Nat := MSG_STORE_ACK :: messageId

/-- Translation of `decodeStoreAck` (never throws). -/
def decodeStoreAck (buf : List Nat) : List Nat := buf.drop 1

/-- Translation of `encodeHasValue`. -/
def encodeHasValue (messageId key : List Nat) : List Nat :=
  let buf := bufSet (bufAlloc (1 + 8 + NODE_ID_LEN)) 0 MSG_HAS_VALUE
  let buf := bufCopy buf messageId 1
  bufCopy buf key 9

/-- Translation of `decodeHasValue` (never throws). -/
def decodeHasValue (buf : List Nat) : List Nat × List Nat :=
  (subarray buf 1 9, subarray buf 9 (9 + NODE_ID_LEN))

/-- Translation of `encodeHasValueResponse`. -/
def encodeHasValueResponse (messageId : List Nat) (has : Bool) : List Nat :=
  let buf := bufSet (bufAlloc (1 + 8 + 1)) 0 MSG_HAS_VALUE_RESPONSE
  let buf := bufCopy buf messageId 1
  bufSet buf 9 (if has then 1 else 0)

/-- Translation of `decodeHasValueResponse` (never throws; a missing flag byte
reads as `undefined`, which compares unequal to 1). -/
def decodeHasValueResponse (buf : List Nat) : List Nat × Bool :=
  (subarray buf 1 9, decide (buf.getD 9 0 = 1))

/-! ## Buffer-layout lemmas for the codec round trip -/

theorem bufAlloc_split (a b : Nat) : bufAlloc (a + b) = bufAlloc a ++ bufAlloc b :=
  List.replicate_add a b 0

theorem bufSet_alloc_zero (k v : Nat) (hv : v < 256) :
    bufSet (bufAlloc (1 + k)) 0 v = v :: bufAlloc k := by
  unfold bufSet bufAlloc
  rw [show 1 + k = k + 1 by omega, List.replicate_succ]
  simp [Nat.mod_eq_of_lt hv]

theorem bufCopy_cons_zeros (x a : Nat) (rest src : List Nat) (h : src.length = a) :
    bufCopy (x :: (bufAlloc a ++ rest)) src 1 = x :: (src ++ rest) := by
  have := bufCopy_exact [x] (bufAlloc a) rest src 1 (by simp) (by simp [bufAlloc, h])
  simpa using this

theorem bufCopy_at (pre rest src : List Nat) (a ts : Nat)
    (hts : ts = pre.length) (h : src.length = a) :
    bufCopy (pre ++ (bufAlloc a ++ rest)) src ts = pre ++ (src ++ rest) := by
  have := bufCopy_exact pre (bufAlloc a) rest src ts hts (by simp [bufAlloc, h])
  simpa [List.append_assoc] using this

theorem bufSet_at (pre rest : List Nat) (b v ts : Nat) (hts : ts = pre.length) :
    bufSet (pre ++ b :: rest) ts v = pre ++ (v % 256) :: rest := by
  subst hts
  unfold bufSet
  rw [List.set_append]
  simp

theorem getD_append_at (l1 l2 : List Nat) (i k : Nat) (hik : i = l1.length + k) :
    (l1 ++ l2).getD i 0 = l2.getD k 0 := by
  subst hik
  exact getD_append_right l1 l2 k

/-- Effect of the `forEach`-of-`copy` loop in the node-list encoders: copying
32-byte ids at 32-byte strides into a zero region starting right after the
prefix produces the concatenation of the ids. -/
theorem foldl_copy_ids (base : Nat) (ids : List (List Nat)) :
    ∀ (j : Nat) (pre : List Nat), (∀ id ∈ ids, id.length = 32) →
      pre.length = base + j * 32 →
      (List.enumFrom j ids).foldl (fun b pr => bufCopy b pr.2 (base + pr.1 * 32))
          (pre ++ bufAlloc (ids.length * 32)) =
        pre ++ ids.flatten := by
  induction ids with
  | nil =>
    intro j pre _ _
    simp [bufAlloc]
  | cons id rest ih =>
    intro j pre hlen hpre
    have hid : id.length = 32 := hlen id (List.mem_cons_self id rest)
    rw [List.enumFrom_cons]
    simp only [List.foldl_cons]
    have hsplit : bufAlloc ((id :: rest).length * 32) = bufAlloc 32 ++ bufAlloc (rest.length * 32) := by
      rw [← bufAlloc_split]
      congr 1
      simp [List.length_cons]
      ring
    rw [hsplit]
    have hcopy : bufCopy (pre ++ (bufAlloc 32 ++ bufAlloc (rest.length * 32))) id
        (base + j * 32) = pre ++ (id ++ bufAlloc (rest.length * 32)) :=
      bufCopy_at pre (bufAlloc (rest.length * 32)) id 32 _ hpre.symm hid
    rw [hcopy]
    have hre : pre ++ (id ++ bufAlloc (rest.length * 32)) =
        (pre ++ id) ++ bufAlloc (rest.length * 32) := by
      simp [List.append_assoc]
    rw [hre]
    have hpre2 : (pre ++ id).length = base + (j + 1) * 32 := by
      simp [hid, hpre]
      ring
    rw [ih (j + 1) (pre ++ id) (fun x hx => hlen x (List.mem_cons_of_mem id hx)) hpre2]
    simp [List.append_assoc]

/-- Extracting 32-byte slices at 32-byte strides from a flattened id list
returns the original ids. -/
theorem subarray_flat (ids : List (List Nat)) :
    ∀ (pre post : List Nat), (∀ id ∈ ids, id.length = 32) →
      (List.range ids.length).map (fun i =>
        subarray (pre ++ ids.flatten ++ post) (pre.length + i * 32)
          (pre.length + (i + 1) * 32)) = ids := by
  induction ids with
  | nil =>
    intro pre post _
    simp
  | cons id rest ih =>
    intro pre post hlen
    have hid : id.length = 32 := hlen id (List.mem_cons_self id rest)
    have hbuf : pre ++ (id :: rest).flatten ++ post = pre ++ id ++ (rest.flatten ++ post) := by
      simp [List.flatten_cons, List.append_assoc]
    have hbuf2 : pre ++ (id :: rest).flatten ++ post = (pre ++ id) ++ rest.flatten ++ post := by
      simp [List.flatten_cons, List.append_assoc]
    have hl : (pre ++ id).length = pre.length + 32 := by simp [hid]
    simp only [List.length_cons, List.range_succ_eq_map, List.map_cons, List.map_map]
    congr 1
    · rw [hbuf]
      exact subarray_middle pre id (rest.flatten ++ post) _ _ (by ring) (by simp [hid])
    · refine Eq.trans (List.map_congr_left ?_)
        (ih (pre ++ id) post (fun x hx => hlen x (List.mem_cons_of_mem id hx)))
      intro i _
      simp only [Function.comp_apply]
      rw [hbuf2, hl]
      congr 1
      · omega
      · omega

theorem subarray_eq_of (buf pre m post : List Nat) (s e : Nat)
    (hbuf : buf = pre ++ m ++ post) (hs : s = pre.length)
    (he : e = pre.length + m.length) :
    subarray buf s e = m := by
  rw [hbuf]
  exact subarray_middle pre m post s e hs he

/-! ## Encoder normal forms: each encoder output as a plain concatenation,
under the length side conditions that hold for well-formed messages. -/

theorem encodeFindNode_eq (mid t : List Nat) (hm : mid.length = 8) (ht : t.length = 32) :
    encodeFindNode mid t = some (MSG_FIND_NODE :: (mid ++ t)) := by
  have hne : ¬ mid.length ≠ 8 := by omega
  simp only [encodeFindNode, if_neg hne]
  rw [show 1 + 8 + NODE_ID_LEN = 1 + (8 + NODE_ID_LEN) by omega,
    bufSet_alloc_zero _ _ (by norm_num [MSG_FIND_NODE]), bufAlloc_split,
    bufCopy_cons_zeros _ _ _ _ hm]
  have h3 : bufCopy (MSG_FIND_NODE :: (mid ++ bufAlloc NODE_ID_LEN)) t 9 =
      MSG_FIND_NODE :: (mid ++ t) := by
    have := bufCopy_at (MSG_FIND_NODE :: mid) [] t NODE_ID_LEN 9
      (by simp [hm]) (by simp [ht, NODE_ID_LEN])
    simpa using this
  rw [h3]

theorem encodeFindValue_eq (mid k : List Nat) (hm : mid.length = 8) (hk : k.length = 32) :
    encodeFindValue mid k = MSG_FIND_VALUE :: (mid ++ k) := by
  simp only [encodeFindValue]
  rw [show 1 + 8 + NODE_ID_LEN = 1 + (8 + NODE_ID_LEN) by omega,
    bufSet_alloc_zero _ _ (by norm_num [MSG_FIND_VALUE]), bufAlloc_split,
    bufCopy_cons_zeros _ _ _ _ hm]
  have h3 : bufCopy (MSG_FIND_VALUE :: (mid ++ bufAlloc NODE_ID_LEN)) k 9 =
      MSG_FIND_VALUE :: (mid ++ k) := by
    have := bufCopy_at (MSG_FIND_VALUE :: mid) [] k NODE_ID_LEN 9
      (by simp [hm]) (by simp [hk, NODE_ID_LEN])
    simpa using this
  rw [h3]

theorem encodeHasValue_eq (mid k : List Nat) (hm : mid.length = 8) (hk : k.length = 32) :
    encodeHasValue mid k = MSG_HAS_VALUE :: (mid ++ k) := by
  simp only [encodeHasValue]
  rw [show 1 + 8 + NODE_ID_LEN = 1 + (8 + NODE_ID_LEN) by omega,
    bufSet_alloc_zero _ _ (by norm_num [MSG_HAS_VALUE]), bufAlloc_split,
    bufCopy_cons_zeros _ _ _ _ hm]
  have h3 : bufCopy (MSG_HAS_VALUE :: (mid ++ bufAlloc NODE_ID_LEN)) k 9 =
      MSG_HAS_VALUE :: (mid ++ k) := by
    have := bufCopy_at (MSG_HAS_VALUE :: mid) [] k NODE_ID_LEN 9
      (by simp [hm]) (by simp [hk, NODE_ID_LEN])
    simpa using this
  rw [h3]

theorem encodeHasValueResponse_eq (mid : List Nat) (has : Bool) (hm : mid.length = 8) :
    encodeHasValueResponse mid has =
      MSG_HAS_VALUE_RESPONSE :: (mid ++ [if has then 1 else 0]) := by
  simp only [encodeHasValueResponse]
  rw [show 1 + 8 + 1 = 1 + (8 + 1) by omega,
    bufSet_alloc_zero _ _ (by norm_num [MSG_HAS_VALUE_RESPONSE]), bufAlloc_split,
    bufCopy_cons_zeros _ _ _ _ hm]
  have hsh : MSG_HAS_VALUE_RESPONSE :: (mid ++ bufAlloc 1) =
      (MSG_HAS_VALUE_RESPONSE :: mid) ++ 0 :: [] := by
    simp [bufAlloc]
  rw [hsh, bufSet_at _ _ _ _ _ (by simp [hm])]
  cases has <;> simp

theorem encodeStore_eq (mid k : List Nat) (r : Record)
    (hm : mid.length = 8) (hk : k.length = 32) :
    encodeStore mid k r =
      MSG_STORE :: (mid ++ (k ++ (u32be (jsonRecord r).length ++ jsonRecord r))) := by
  simp only [encodeStore]
  rw [show 1 + 8 + NODE_ID_LEN + 4 + (jsonRecord r).length =
      1 + (8 + (NODE_ID_LEN + (4 + (jsonRecord r).length))) by omega,
    bufSet_alloc_zero _ _ (by norm_num [MSG_STORE]), bufAlloc_split, bufAlloc_split,
    bufAlloc_split, bufCopy_cons_zeros _ _ _ _ hm]
  have h2 : bufCopy (MSG_STORE :: (mid ++ (bufAlloc NODE_ID_LEN ++
      (bufAlloc 4 ++ bufAlloc (jsonRecord r).length)))) k 9 =
      MSG_STORE :: (mid ++ (k ++ (bufAlloc 4 ++ bufAlloc (jsonRecord r).length))) := by
    have := bufCopy_at (MSG_STORE :: mid) (bufAlloc 4 ++ bufAlloc (jsonRecord r).length)
      k NODE_ID_LEN 9 (by simp [hm]) (by simp [hk, NODE_ID_LEN])
    simpa [List.append_assoc] using this
  rw [h2]
  have h3 : bufCopy (MSG_STORE :: (mid ++ (k ++ (bufAlloc 4 ++
      bufAlloc (jsonRecord r).length)))) (u32be (jsonRecord r).length) (9 + NODE_ID_LEN) =
      MSG_STORE :: (mid ++ (k ++ (u32be (jsonRecord r).length ++
        bufAlloc (jsonRecord r).length))) := by
    have := bufCopy_at ((MSG_STORE :: mid) ++ k) (bufAlloc (jsonRecord r).length)
      (u32be (jsonRecord r).length) 4 (9 + NODE_ID_LEN)
      (by simp [hm, hk, NODE_ID_LEN]) (by simp [u32be])
    simpa [List.append_assoc] using this
  rw [h3]
  have h4 : bufCopy (MSG_STORE :: (mid ++ (k ++ (u32be (jsonRecord r).length ++
      bufAlloc (jsonRecord r).length)))) (jsonRecord r) (13 + NODE_ID_LEN) =
      MSG_STORE :: (mid ++ (k ++ (u32be (jsonRecord r).length ++ jsonRecord r))) := by
    have := bufCopy_at (((MSG_STORE :: mid) ++ k) ++ u32be (jsonRecord r).length) []
      (jsonRecord r) (jsonRecord r).length (13 + NODE_ID_LEN)
      (by simp [hm, hk, NODE_ID_LEN, u32be]) rfl
    simpa [List.append_assoc] using this
  rw [h4]

theorem encodeFindNodeResponse_eq (mid : List Nat) (ids : List (List Nat))
    (hm : mid.length = 8) (hids : ∀ id ∈ ids, id.length = 32)
    (hcount : ids.length ≤ 255) :
    encodeFindNodeResponse mid ids =
      some (MSG_FIND_NODE_RESPONSE :: (mid ++ ids.length :: ids.flatten)) := by
  have hne : ¬ mid.length ≠ 8 := by omega
  simp only [encodeFindNodeResponse, if_neg hne]
  rw [show 1 + 8 + 1 + ids.length * NODE_ID_LEN =
      1 + (8 + (1 + ids.length * NODE_ID_LEN)) by omega,
    bufSet_alloc_zero _ _ (by norm_num [MSG_FIND_NODE_RESPONSE]), bufAlloc_split,
    bufAlloc_split, bufCopy_cons_zeros _ _ _ _ hm]
  have hsh : MSG_FIND_NODE_RESPONSE :: (mid ++ (bufAlloc 1 ++
      bufAlloc (ids.length * NODE_ID_LEN))) =
      (MSG_FIND_NODE_RESPONSE :: mid) ++ 0 :: bufAlloc (ids.length * NODE_ID_LEN) := by
    simp [bufAlloc]
  rw [hsh, bufSet_at _ _ _ _ _ (by simp [hm]),
    Nat.mod_eq_of_lt (by omega : ids.length < 256)]
  have hfold := foldl_copy_ids 10 ids 0
    ((MSG_FIND_NODE_RESPONSE :: mid) ++ [ids.length]) hids (by simp [hm])
  have hsh2 : (MSG_FIND_NODE_RESPONSE :: mid) ++ ids.length ::
      bufAlloc (ids.length * NODE_ID_LEN) =
      ((MSG_FIND_NODE_RESPONSE :: mid) ++ [ids.length]) ++ bufAlloc (ids.length * 32) := by
    simp [List.append_assoc, NODE_ID_LEN]
  rw [hsh2]
  have hfn : (ids.enum).foldl
      (fun b pr => bufCopy b pr.2 (10 + pr.1 * NODE_ID_LEN))
      (((MSG_FIND_NODE_RESPONSE :: mid) ++ [ids.length]) ++ bufAlloc (ids.length * 32)) =
      ((MSG_FIND_NODE_RESPONSE :: mid) ++ [ids.length]) ++ ids.flatten := by
    have henum : ids.enum = List.enumFrom 0 ids := rfl
    rw [henum]
    simpa [NODE_ID_LEN] using hfold
  rw [hfn]
  simp [List.append_assoc]

theorem encodeFindValueResponse_found_eq (mid : List Nat) (r : Record)
    (nodes : List (List Nat)) (hm : mid.length = 8) :
    encodeFindValueResponse mid (some r) nodes =
      MSG_FIND_VALUE_RESPONSE :: (mid ++ 1 :: (u32be (jsonRecord r).length ++
        jsonRecord r)) := by
  simp only [encodeFindValueResponse]
  rw [show 1 + 8 + 1 + 4 + (jsonRecord r).length =
      1 + (8 + (1 + (4 + (jsonRecord r).length))) by omega,
    bufSet_alloc_zero _ _ (by norm_num [MSG_FIND_VALUE_RESPONSE]), bufAlloc_split,
    bufAlloc_split, bufAlloc_split, bufCopy_cons_zeros _ _ _ _ hm]
  have hsh : MSG_FIND_VALUE_RESPONSE :: (mid ++ (bufAlloc 1 ++ (bufAlloc 4 ++
      bufAlloc (jsonRecord r).length))) =
      (MSG_FIND_VALUE_RESPONSE :: mid) ++ 0 :: (bufAlloc 4 ++
        bufAlloc (jsonRecord r).length) := by
    simp [bufAlloc]
  rw [hsh, bufSet_at _ _ _ _ _ (by simp [hm])]
  have h3 : bufCopy ((MSG_FIND_VALUE_RESPONSE :: mid) ++ 1 % 256 :: (bufAlloc 4 ++
      bufAlloc (jsonRecord r).length)) (u32be (jsonRecord r).length) 10 =
      (MSG_FIND_VALUE_RESPONSE :: mid) ++ 1 % 256 :: (u32be (jsonRecord r).length ++
        bufAlloc (jsonRecord r).length) := by
    have := bufCopy_at ((MSG_FIND_VALUE_RESPONSE :: mid) ++ [1 % 256])
      (bufAlloc (jsonRecord r).length) (u32be (jsonRecord r).length) 4 10
      (by simp [hm]) (by simp [u32be])
    simpa [List.append_assoc] using this
  rw [h3]
  have h4 : bufCopy ((MSG_FIND_VALUE_RESPONSE :: mid) ++ 1 % 256 ::
      (u32be (jsonRecord r).length ++ bufAlloc (jsonRecord r).length)) (jsonRecord r) 14 =
      (MSG_FIND_VALUE_RESPONSE :: mid) ++ 1 % 256 :: (u32be (jsonRecord r).length ++
        jsonRecord r) := by
    have := bufCopy_at (((MSG_FIND_VALUE_RESPONSE :: mid) ++ [1 % 256]) ++
      u32be (jsonRecord r).length) [] (jsonRecord r) (jsonRecord r).length 14
      (by simp [hm, u32be]) rfl
    simpa [List.append_assoc] using this
  rw [h4]
  simp [List.append_assoc]

theorem encodeFindValueResponse_notFound_eq (mid : List Nat) (nodes : List (List Nat))
    (hm : mid.length = 8) (hids : ∀ id ∈ nodes, id.length = 32)
    (hcount : nodes.length ≤ 255) :
    encodeFindValueResponse mid none nodes =
      MSG_FIND_VALUE_RESPONSE :: (mid ++ 0 :: nodes.length :: nodes.flatten) := by
  simp only [encodeFindValueResponse]
  rw [show 1 + 8 + 1 + 1 + nodes.length * NODE_ID_LEN =
      1 + (8 + (1 + (1 + nodes.length * NODE_ID_LEN))) by omega,
    bufSet_alloc_zero _ _ (by norm_num [MSG_FIND_VALUE_RESPONSE]), bufAlloc_split,
    bufAlloc_split, bufAlloc_split, bufCopy_cons_zeros _ _ _ _ hm]
  have hsh : MSG_FIND_VALUE_RESPONSE :: (mid ++ (bufAlloc 1 ++ (bufAlloc 1 ++
      bufAlloc (nodes.length * NODE_ID_LEN)))) =
      (MSG_FIND_VALUE_RESPONSE :: mid) ++ 0 :: (bufAlloc 1 ++
        bufAlloc (nodes.length * NODE_ID_LEN)) := by
    simp [bufAlloc]
  rw [hsh, bufSet_at _ _ _ _ _ (by simp [hm])]
  have hsh2 : (MSG_FIND_VALUE_RESPONSE :: mid) ++ 0 % 256 :: (bufAlloc 1 ++
      bufAlloc (nodes.length * NODE_ID_LEN)) =
      ((MSG_FIND_VALUE_RESPONSE :: mid) ++ [0 % 256]) ++ 0 ::
        bufAlloc (nodes.length * NODE_ID_LEN) := by
    simp [bufAlloc, List.append_assoc]
  rw [hsh2, bufSet_at _ _ _ _ _ (by simp [hm]),
    Nat.mod_eq_of_lt (by omega : nodes.length < 256)]
  have hfold := foldl_copy_ids 11 nodes 0
    (((MSG_FIND_VALUE_RESPONSE :: mid) ++ [0 % 256]) ++ [nodes.length]) hids (by simp [hm])
  have hsh3 : ((MSG_FIND_VALUE_RESPONSE :: mid) ++ [0 % 256]) ++ nodes.length ::
      bufAlloc (nodes.length * NODE_ID_LEN) =
      (((MSG_FIND_VALUE_RESPONSE :: mid) ++ [0 % 256]) ++ [nodes.length]) ++
        bufAlloc (nodes.length * 32) := by
    simp [List.append_assoc, NODE_ID_LEN]
  rw [hsh3]
  have hfn : (nodes.enum).foldl
      (fun b pr => bufCopy b pr.2 (11 + pr.1 * NODE_ID_LEN))
      ((((MSG_FIND_VALUE_RESPONSE :: mid) ++ [0 % 256]) ++ [nodes.length]) ++
        bufAlloc (nodes.length * 32)) =
      (((MSG_FIND_VALUE_RESPONSE :: mid) ++ [0 % 256]) ++ [nodes.length]) ++
        nodes.flatten := by
    have henum : nodes.enum = List.enumFrom 0 nodes := rfl
    rw [henum]
    simpa [NODE_ID_LEN] using hfold
  rw [hfn]
  simp [List.append_assoc]

/-! ## Round-trip facts, one per message shape -/

theorem roundtrip_findNode (mid t : List Nat) (hm : mid.length = 8) (ht : t.length = 32) :
    (encodeFindNode mid t).map decodeFindNode = some (mid, t) := by
  rw [encodeFindNode_eq mid t hm ht, Option.map_some']
  unfold decodeFindNode
  have h1 : subarray (MSG_FIND_NODE :: (mid ++ t)) 1 9 = mid :=
    subarray_eq_of _ [MSG_FIND_NODE] mid t _ _ (by simp) (by simp) (by simp [hm])
  have h2 : subarray (MSG_FIND_NODE :: (mid ++ t)) 9 (9 + NODE_ID_LEN) = t :=
    subarray_eq_of _ (MSG_FIND_NODE :: mid) t [] _ _ (by simp) (by simp [hm])
      (by simp [hm, ht, NODE_ID_LEN])
  rw [h1, h2]

theorem roundtrip_findNodeResponse (mid : List Nat) (ids : List (List Nat))
    (hm : mid.length = 8) (hids : ∀ id ∈ ids, id.length = 32)
    (hcount : ids.length ≤ 255) :
    (encodeFindNodeResponse mid ids).map decodeFindNodeResponse = some (mid, ids) := by
  rw [encodeFindNodeResponse_eq mid ids hm hids hcount, Option.map_some']
  unfold decodeFindNodeResponse
  have h1 : subarray (MSG_FIND_NODE_RESPONSE :: (mid ++ ids.length :: ids.flatten)) 1 9 =
      mid :=
    subarray_eq_of _ [MSG_FIND_NODE_RESPONSE] mid (ids.length :: ids.flatten) _ _
      (by simp) (by simp) (by simp [hm])
  have h2 : (MSG_FIND_NODE_RESPONSE :: (mid ++ ids.length :: ids.flatten)).getD 9 0 =
      ids.length := by
    have := getD_append_at (MSG_FIND_NODE_RESPONSE :: mid) (ids.length :: ids.flatten)
      9 0 (by simp [hm])
    simpa using this
  have h3 := subarray_flat ids (MSG_FIND_NODE_RESPONSE :: (mid ++ [ids.length])) [] hids
  rw [h1, h2]
  refine congrArg _ (congrArg _ ?_)
  have hpre : (MSG_FIND_NODE_RESPONSE :: (mid ++ [ids.length])).length = 10 := by
    simp [hm]
  rw [hpre] at h3
  have hbufeq : MSG_FIND_NODE_RESPONSE :: (mid ++ [ids.length]) ++ ids.flatten ++ [] =
      MSG_FIND_NODE_RESPONSE :: (mid ++ ids.length :: ids.flatten) := by
    simp [List.append_assoc]
  rw [hbufeq] at h3
  refine Eq.trans (List.map_congr_left ?_) h3
  intro i _
  simp [NODE_ID_LEN]

theorem roundtrip_store (mid k : List Nat) (r : Record)
    (hm : mid.length = 8) (hk : k.length = 32) (hr : RecordWF r)
    (hjson : (jsonRecord r).length < 2 ^ 32) :
    decodeStore (encodeStore mid k r) = some (mid, k, r) := by
  rw [encodeStore_eq mid k r hm hk]
  unfold decodeStore
  have hlenb : (MSG_STORE :: (mid ++ (k ++ (u32be (jsonRecord r).length ++
      jsonRecord r)))).length = 45 + (jsonRecord r).length := by
    simp [hm, hk, u32be]
    omega
  rw [if_neg (by rw [hlenb]; simp only [NODE_ID_LEN]; omega)]
  have hread : readU32BE (MSG_STORE :: (mid ++ (k ++ (u32be (jsonRecord r).length ++
      jsonRecord r)))) (9 + NODE_ID_LEN) = (jsonRecord r).length := by
    have := readU32BE_exact ((MSG_STORE :: mid) ++ k) (jsonRecord r)
      (jsonRecord r).length hjson (9 + NODE_ID_LEN) (by simp [hm, hk, NODE_ID_LEN])
    have hb : (MSG_STORE :: mid) ++ k ++ (u32be (jsonRecord r).length ++ jsonRecord r) =
        MSG_STORE :: (mid ++ (k ++ (u32be (jsonRecord r).length ++ jsonRecord r))) := by
      simp [List.append_assoc]
    rwa [hb] at this
  have hsub : subarray (MSG_STORE :: (mid ++ (k ++ (u32be (jsonRecord r).length ++
      jsonRecord r)))) (13 + NODE_ID_LEN) (13 + NODE_ID_LEN + (jsonRecord r).length) =
      jsonRecord r :=
    subarray_eq_of _ (((MSG_STORE :: mid) ++ k) ++ u32be (jsonRecord r).length)
      (jsonRecord r) [] _ _ (by simp [List.append_assoc])
      (by simp [hm, hk, NODE_ID_LEN, u32be])
      (by simp [hm, hk, NODE_ID_LEN, u32be])
  have h1 : subarray (MSG_STORE :: (mid ++ (k ++ (u32be (jsonRecord r).length ++
      jsonRecord r)))) 1 9 = mid :=
    subarray_eq_of _ [MSG_STORE] mid (k ++ (u32be (jsonRecord r).length ++ jsonRecord r))
      _ _ (by simp) (by simp) (by simp [hm])
  have h2 : subarray (MSG_STORE :: (mid ++ (k ++ (u32be (jsonRecord r).length ++
      jsonRecord r)))) 9 (9 + NODE_ID_LEN) = k :=
    subarray_eq_of _ (MSG_STORE :: mid) k (u32be (jsonRecord r).length ++ jsonRecord r)
      _ _ (by simp [List.append_assoc]) (by simp [hm]) (by simp [hm, hk, NODE_ID_LEN])
  simp only [hread, hsub, parseRecord_jsonRecord r hr, Option.map_some', h1, h2]

theorem roundtrip_findValue (mid k : List Nat) (hm : mid.length = 8) (hk : k.length = 32) :
    decodeFindValue (encodeFindValue mid k) = some (mid, k) := by
  rw [encodeFindValue_eq mid k hm hk]
  unfold decodeFindValue
  rw [if_neg (by simp [hm, hk, NODE_ID_LEN])]
  have h1 : subarray (MSG_FIND_VALUE :: (mid ++ k)) 1 9 = mid :=
    subarray_eq_of _ [MSG_FIND_VALUE] mid k _ _ (by simp) (by simp) (by simp [hm])
  have h2 : subarray (MSG_FIND_VALUE :: (mid ++ k)) 9 (9 + NODE_ID_LEN) = k :=
    subarray_eq_of _ (MSG_FIND_VALUE :: mid) k [] _ _ (by simp) (by simp [hm])
      (by simp [hm, hk, NODE_ID_LEN])
  rw [h1, h2]

theorem roundtrip_findValueResponse_found (mid : List Nat) (r : Record)
    (nodes : List (List Nat)) (hm : mid.length = 8) (hr : RecordWF r)
    (hjson : (jsonRecord r).length < 2 ^ 32) :
    decodeFindValueResponse (encodeFindValueResponse mid (some r) nodes) =
      some (.found mid r) := by
  rw [encodeFindValueResponse_found_eq mid r nodes hm]
  unfold decodeFindValueResponse
  have hflag : (MSG_FIND_VALUE_RESPONSE :: (mid ++ 1 :: (u32be (jsonRecord r).length ++
      jsonRecord r))).getD 9 0 = 1 := by
    have := getD_append_at (MSG_FIND_VALUE_RESPONSE :: mid)
      (1 :: (u32be (jsonRecord r).length ++ jsonRecord r)) 9 0 (by simp [hm])
    simpa using this
  rw [hflag, if_pos rfl]
  have hlenb : (MSG_FIND_VALUE_RESPONSE :: (mid ++ 1 :: (u32be (jsonRecord r).length ++
      jsonRecord r))).length = 14 + (jsonRecord r).length := by
    simp [hm, u32be]
    omega
  rw [if_neg (by rw [hlenb]; omega)]
  have hread : readU32BE (MSG_FIND_VALUE_RESPONSE :: (mid ++ 1 ::
      (u32be (jsonRecord r).length ++ jsonRecord r))) 10 = (jsonRecord r).length := by
    have := readU32BE_exact ((MSG_FIND_VALUE_RESPONSE :: mid) ++ [1]) (jsonRecord r)
      (jsonRecord r).length hjson 10 (by simp [hm])
    have hb : ((MSG_FIND_VALUE_RESPONSE :: mid) ++ [1]) ++ (u32be (jsonRecord r).length ++
        jsonRecord r) =
        MSG_FIND_VALUE_RESPONSE :: (mid ++ 1 :: (u32be (jsonRecord r).length ++
          jsonRecord r)) := by
      simp [List.append_assoc]
    rwa [hb] at this
  have hsub : subarray (MSG_FIND_VALUE_RESPONSE :: (mid ++ 1 ::
      (u32be (jsonRecord r).length ++ jsonRecord r))) 14 (14 + (jsonRecord r).length) =
      jsonRecord r :=
    subarray_eq_of _ (((MSG_FIND_VALUE_RESPONSE :: mid) ++ [1]) ++
      u32be (jsonRecord r).length) (jsonRecord r) [] _ _
      (by simp [List.append_assoc]) (by simp [hm, u32be]) (by simp [hm, u32be])
  have h1 : subarray (MSG_FIND_VALUE_RESPONSE :: (mid ++ 1 ::
      (u32be (jsonRecord r).length ++ jsonRecord r))) 1 9 = mid :=
    subarray_eq_of _ [MSG_FIND_VALUE_RESPONSE] mid
      (1 :: (u32be (jsonRecord r).length ++ jsonRecord r)) _ _ (by simp) (by simp)
      (by simp [hm])
  simp only [hread, hsub, parseRecord_jsonRecord r hr, Option.map_some', h1]

theorem roundtrip_findValueResponse_notFound (mid : List Nat) (nodes : List (List Nat))
    (hm : mid.length = 8) (hids : ∀ id ∈ nodes, id.length = 32)
    (hcount : nodes.length ≤ 255) :
    decodeFindValueResponse (encodeFindValueResponse mid none nodes) =
      some (.notFound mid nodes) := by
  rw [encodeFindValueResponse_notFound_eq mid nodes hm hids hcount]
  unfold decodeFindValueResponse
  have hflag : (MSG_FIND_VALUE_RESPONSE :: (mid ++ 0 :: nodes.length ::
      nodes.flatten)).getD 9 0 = 0 := by
    have := getD_append_at (MSG_FIND_VALUE_RESPONSE :: mid)
      (0 :: nodes.length :: nodes.flatten) 9 0 (by simp [hm])
    simpa using this
  rw [hflag, if_neg (by omega)]
  have hcnt : (MSG_FIND_VALUE_RESPONSE :: (mid ++ 0 :: nodes.length ::
      nodes.flatten)).getD 10 0 = nodes.length := by
    have := getD_append_at ((MSG_FIND_VALUE_RESPONSE :: mid) ++ [0])
      (nodes.length :: nodes.flatten) 10 0 (by simp [hm])
    have hb : ((MSG_FIND_VALUE_RESPONSE :: mid) ++ [0]) ++ (nodes.length ::
        nodes.flatten) =
        MSG_FIND_VALUE_RESPONSE :: (mid ++ 0 :: nodes.length :: nodes.flatten) := by
      simp [List.append_assoc]
    rwa [hb] at this
  have h1 : subarray (MSG_FIND_VALUE_RESPONSE :: (mid ++ 0 :: nodes.length ::
      nodes.flatten)) 1 9 = mid :=
    subarray_eq_of _ [MSG_FIND_VALUE_RESPONSE] mid (0 :: nodes.length :: nodes.flatten)
      _ _ (by simp) (by simp) (by simp [hm])
  rw [hcnt, h1]
  refine congrArg _ (congrArg _ ?_)
  have h3 := subarray_flat nodes (MSG_FIND_VALUE_RESPONSE :: (mid ++ [0, nodes.length]))
    [] hids
  have hpre : (MSG_FIND_VALUE_RESPONSE :: (mid ++ [0, nodes.length])).length = 11 := by
    simp [hm]
  rw [hpre] at h3
  have hbufeq : MSG_FIND_VALUE_RESPONSE :: (mid ++ [0, nodes.length]) ++ nodes.flatten ++
      [] = MSG_FIND_VALUE_RESPONSE :: (mid ++ 0 :: nodes.length :: nodes.flatten) := by
    simp [List.append_assoc]
  rw [hbufeq] at h3
  refine Eq.trans (List.map_congr_left ?_) h3
  intro i _
  simp [NODE_ID_LEN]

theorem roundtrip_hasValue (mid k : List Nat) (hm : mid.length = 8) (hk : k.length = 32) :
    decodeHasValue (encodeHasValue mid k) = (mid, k) := by
  rw [encodeHasValue_eq mid k hm hk]
  unfold decodeHasValue
  have h1 : subarray (MSG_HAS_VALUE :: (mid ++ k)) 1 9 = mid :=
    subarray_eq_of _ [MSG_HAS_VALUE] mid k _ _ (by simp) (by simp) (by simp [hm])
  have h2 : subarray (MSG_HAS_VALUE :: (mid ++ k)) 9 (9 + NODE_ID_LEN) = k :=
    subarray_eq_of _ (MSG_HAS_VALUE :: mid) k [] _ _ (by simp) (by simp [hm])
      (by simp [hm, hk, NODE_ID_LEN])
  rw [h1, h2]

theorem roundtrip_hasValueResponse (mid : List Nat) (has : Bool) (hm : mid.length = 8) :
    decodeHasValueResponse (encodeHasValueResponse mid has) = (mid, has) := by
  rw [encodeHasValueResponse_eq mid has hm]
  unfold decodeHasValueResponse
  have h1 : subarray (MSG_HAS_VALUE_RESPONSE :: (mid ++ [if has then 1 else 0])) 1 9 =
      mid :=
    subarray_eq_of _ [MSG_HAS_VALUE_RESPONSE] mid [if has then 1 else 0] _ _ (by simp)
      (by simp) (by simp [hm])
  have h2 : (MSG_HAS_VALUE_RESPONSE :: (mid ++ [if has then 1 else 0])).getD 9 0 =
      if has then 1 else 0 := by
    have := getD_append_at (MSG_HAS_VALUE_RESPONSE :: mid) [if has then 1 else 0] 9 0
      (by simp [hm])
    simpa using this
  rw [h1, h2]
  cases has <;> simp

theorem decodeMessage_cons (t : Nat) (rest : List Nat) :
    decodeMessage (t :: rest) = some (t, rest) := by
  simp [decodeMessage]

/-- Claim C3: for every well-formed message of every protocol shape (8-byte
message ids, 32-byte node ids and keys, at most 255 ids per response,
records whose text fields need no JSON escaping and whose JSON text fits the
4-byte length field), decoding the encoding returns the message: the type
byte (via `decodeMessage`) and every body field (via the shape decoder) are
restored exactly. -/
theorem codec_roundtrip
    (mid nid key target : List Nat) (ids : List (List Nat)) (r : Record) (has : Bool)
    (hmid : mid.length = 8) (hkey : key.length = 32) (htarget : target.length = 32)
    (hids : ∀ id ∈ ids, id.length = 32) (hcount : ids.length ≤ 255)
    (hr : RecordWF r) (hjson : (jsonRecord r).length < 2 ^ 32) :
    decodeMessage (encodePing nid) = some (MSG_PING, nid) ∧
    decodeMessage (encodePong nid) = some (MSG_PONG, nid) ∧
    (encodeFindNode mid target).map decodeFindNode = some (mid, target) ∧
    (encodeFindNode mid target).bind decodeMessage =
      some (MSG_FIND_NODE, mid ++ target) ∧
    (encodeFindNodeResponse mid ids).map decodeFindNodeResponse = some (mid, ids) ∧
    (encodeFindNodeResponse mid ids).bind decodeMessage =
      some (MSG_FIND_NODE_RESPONSE, mid ++ ids.length :: ids.flatten) ∧
    decodeStore (encodeStore mid key r) = some (mid, key, r) ∧
    decodeMessage (encodeStore mid key r) =
      some (MSG_STORE, mid ++ (key ++ (u32be (jsonRecord r).length ++ jsonRecord r))) ∧
    decodeFindValue (encodeFindValue mid key) = some (mid, key) ∧
    decodeMessage (encodeFindValue mid key) = some (MSG_FIND_VALUE, mid ++ key) ∧
    decodeFindValueResponse (encodeFindValueResponse mid (some r) ids) =
      some (.found mid r) ∧
    decodeFindValueResponse (encodeFindValueResponse mid none ids) =
      some (.notFound mid ids) ∧
    decodeStoreAck (encodeStoreAck mid) = mid ∧
    decodeMessage (encodeStoreAck mid) = some (MSG_STORE_ACK, mid) ∧
    decodeHasValue (encodeHasValue mid key) = (mid, key) ∧
    decodeMessage (encodeHasValue mid key) = some (MSG_HAS_VALUE, mid ++ key) ∧
    decodeHasValueResponse (encodeHasValueResponse mid has) = (mid, has) ∧
    decodeMessage (encodeHasValueResponse mid has) =
      some (MSG_HAS_VALUE_RESPONSE, mid ++ [if has then 1 else 0]) := by
  refine ⟨decodeMessage_cons _ _, decodeMessage_cons _ _,
    roundtrip_findNode mid target hmid htarget, ?_,
    roundtrip_findNodeResponse mid ids hmid hids hcount, ?_,
    roundtrip_store mid key r hmid hkey hr hjson, ?_,
    roundtrip_findValue mid key hmid hkey, ?_,
    roundtrip_findValueResponse_found mid r ids hmid hr hjson,
    roundtrip_findValueResponse_notFound mid ids hmid hids hcount,
    rfl, decodeMessage_cons _ _,
    roundtrip_hasValue mid key hmid hkey, ?_,
    roundtrip_hasValueResponse mid has hmid, ?_⟩
  · rw [encodeFindNode_eq mid target hmid htarget, Option.some_bind,
      decodeMessage_cons]
  · rw [encodeFindNodeResponse_eq mid ids hmid hids hcount, Option.some_bind,
      decodeMessage_cons]
  · rw [encodeStore_eq mid key r hmid hkey, decodeMessage_cons]
  · rw [encodeFindValue_eq mid key hmid hkey, decodeMessage_cons]
  · rw [encodeHasValue_eq mid key hmid hkey, decodeMessage_cons]
  · rw [encodeHasValueResponse_eq mid has hmid, decodeMessage_cons]

/-- Witness for `codec_roundtrip`: the STORE round trip at a concrete
message. -/
theorem codec_roundtrip_witness :
    decodeStore (encodeStore [0, 1, 2, 3, 4, 5, 6, 7] (List.replicate 32 9)
        { data := [65, 66], ts := 1234, pub := [97, 98] }) =
      some ([0, 1, 2, 3, 4, 5, 6, 7], List.replicate 32 9,
        { data := [65, 66], ts := 1234, pub := [97, 98] }) :=
  (codec_roundtrip [0, 1, 2, 3, 4, 5, 6, 7] (List.replicate 32 9) (List.replicate 32 9)
    (List.replicate 32 9) [List.replicate 32 1]
    { data := [65, 66], ts := 1234, pub := [97, 98] } true
    (by decide) (by decide) (by decide) (by decide) (by decide)
    (by exact ⟨by decide, by decide⟩) (by decide)).2.2.2.2.2.2.1

/-- Claim C6 (counterexample): several decoders accept truncated frames
without signalling any error: a 1-byte FIND_NODE frame decodes to empty
message id and target, a 1-byte STORE_ACK frame decodes to an empty message
id, and a 1-byte HAS_VALUE_RESPONSE frame decodes to `has = false`. -/
theorem decode_truncated_accepted :
    decodeFindNode [3] = ([], []) ∧
    decodeStoreAck [8] = [] ∧
    decodeHasValueResponse [10] = ([], false) := by
  decide

/-- Claim C6 (amended): only part of the decoders validate lengths:
`decodeMessage` rejects the empty frame, `decodeFindValue` rejects every
frame shorter than 41 bytes, and the 4-byte length reads make `decodeStore`
reject frames shorter than 45 bytes and `decodeFindValueResponse` reject
found-form frames shorter than 14 bytes; the remaining decoders (FIND_NODE,
FIND_NODE_RESPONSE, STORE_ACK, HAS_VALUE, HAS_VALUE_RESPONSE) return values
whose fields are clamped to the bytes present instead of signalling an error
(see `decode_truncated_accepted`); none of them crash. -/
theorem decode_truncation_checks (buf : List Nat) :
    decodeMessage [] = none ∧
    (buf.length < 41 → decodeFindValue buf = none) ∧
    (buf.length < 45 → decodeStore buf = none) ∧
    (buf.getD 9 0 = 1 → buf.length < 14 → decodeFindValueResponse buf = none) := by
  refine ⟨rfl, ?_, ?_, ?_⟩
  · intro h
    unfold decodeFindValue
    rw [if_pos (by simp only [NODE_ID_LEN]; omega)]
  · intro h
    unfold decodeStore
    rw [if_pos (by simp only [NODE_ID_LEN]; omega)]
  · intro hflag h
    simp only [decodeFindValueResponse]
    rw [if_pos hflag, if_pos h]

/-- Witness for `decode_truncation_checks` at concrete truncated frames. -/
theorem decode_truncation_checks_witness :
    decodeFindValue [6] = none ∧ decodeStore [5] = none ∧
    decodeFindValueResponse [7, 0, 0, 0, 0, 0, 0, 0, 0, 1] = none :=
  ⟨(decode_truncation_checks [6]).2.1 (by decide),
   (decode_truncation_checks [5]).2.2.1 (by decide),
   (decode_truncation_checks [7, 0, 0, 0, 0, 0, 0, 0, 0, 1]).2.2.2 (by decide) (by decide)⟩

/-! ## Local value store and peer-node logic (`src/peer/peer-node.js`) -/

def STORE_TTL : Nat := 60 * 60 * 1000

def CACHE_TTL : Nat := STORE_TTL / 4

/-- One entry of `this.store`. -/
structure StoreEntry where
  record : Record
  expires : Nat
  publisher : Bool
  lastRepair : Nat
  deriving Repr, DecidableEq

/-- The `this.store` map, keyed by the key id bytes (the JS keys the map by
the hex string of those bytes, a bijective renaming).  Entries are kept in
insertion order, as a JS `Map` does. -/
abbrev Store := List (List Nat × StoreEntry)

/-- Model of `this.store.get(keyHex)`. -/
def storeGet (s : Store) (k : List Nat) : Option StoreEntry :=
  (s.find? (fun p => p.1 = k)).map Prod.snd

/-- Model of `this.store.set(keyHex, v)`: update in place when the key is
present (keeping map order), else append. -/
def storeSet (s : Store) (k : List Nat) (v : StoreEntry) : Store :=
  if s.any (fun p => p.1 = k) then s.map (fun p => if p.1 = k then (k, v) else p)
  else s ++ [(k, v)]

theorem storeGet_storeSet (s : Store) (k : List Nat) (v : StoreEntry) :
    storeGet (storeSet s k v) k = some v := by
  unfold storeGet storeSet
  by_cases h : s.any (fun p => p.1 = k)
  · rw [if_pos h]
    induction s with
    | nil => simp at h
    | cons p rest ih =>
      by_cases hp : p.1 = k
      · rw [List.map_cons, if_pos hp, List.find?_cons_of_pos _ (by simp)]
        rfl
      · rw [List.map_cons, if_neg hp, List.find?_cons_of_neg _ (by simp [hp])]
        apply ih
        simpa [List.any_cons, hp] using h
  · rw [if_neg h]
    rw [List.find?_append]
    have h1 : s.find? (fun p => decide (p.1 = k)) = none := by
      rw [List.find?_eq_none]
      intro p hp
      simp only [decide_eq_true_eq]
      intro hk
      rw [List.any_eq_true] at h
      exact h ⟨p, hp, by simp [hk]⟩
    rw [h1]
    simp [List.find?]

/-! ### Record ordering (claim C8) -/

/-- JS string comparison `a > b` on lists of UTF-16 code units: compare unit
by unit, a strict prefix is smaller. -/
def strGt : List Nat → List Nat → Bool
  | [], _ => false
  | _ :: _, [] => true
  | a :: as, b :: bs => if a = b then strGt as bs else decide (b < a)

/-- Translation of `_isNewer(a, b)`: true when `b` is absent; else the later
timestamp wins, with ties broken by the lexicographically larger publisher
hex string. -/
def isNewer (a : Record) (b : Option Record) : Bool :=
  match b with
  | none => true
  | some b => if a.ts ≠ b.ts then decide (b.ts < a.ts) else strGt a.pub b.pub

theorem strGt_trichotomy :
    ∀ s t : List Nat, s ≠ t →
      (strGt s t = true ∧ strGt t s = false) ∨
      (strGt s t = false ∧ strGt t s = true) := by
  intro s
  induction s with
  | nil =>
    intro t ht
    cases t with
    | nil => exact absurd rfl ht
    | cons c cs => right; exact ⟨rfl, rfl⟩
  | cons a as ih =>
    intro t ht
    cases t with
    | nil => left; exact ⟨rfl, rfl⟩
    | cons b bs =>
      by_cases hab : a = b
      · subst hab
        have hne : as ≠ bs := by
          intro hcontra
          exact ht (by rw [hcontra])
        simpa [strGt] using ih bs hne
      · have hba : ¬ b = a := fun hcontra => hab hcontra.symm
        rcases Nat.lt_or_ge a b with hlt | hge
        · right
          simp [strGt, hab, hba]
          omega
        · have hlt : b < a := by omega
          left
          simp [strGt, hab, hba]
          omega

/-- Claim C8: the `_isNewer` record ordering is a strict total order on
`(ts, pub)`: for records with distinct `(ts, pub)` pairs, exactly one of
`newer(a, b)` and `newer(b, a)` holds. -/
theorem record_order_total (a b : Record) (h : a.ts ≠ b.ts ∨ a.pub ≠ b.pub) :
    (isNewer a (some b) = true ∧ isNewer b (some a) = false) ∨
    (isNewer a (some b) = false ∧ isNewer b (some a) = true) := by
  by_cases hts : a.ts = b.ts
  · have hpub : a.pub ≠ b.pub := by
      rcases h with h | h
      · exact absurd hts h
      · exact h
    have hts2 : ¬ a.ts ≠ b.ts := by omega
    have hts3 : ¬ b.ts ≠ a.ts := by omega
    simp only [isNewer, if_neg hts2, if_neg hts3]
    exact strGt_trichotomy a.pub b.pub hpub
  · have hts3 : b.ts ≠ a.ts := fun hcontra => hts hcontra.symm
    simp only [isNewer, if_pos hts, if_pos hts3]
    rcases Nat.lt_or_ge a.ts b.ts with hlt | hge
    · right
      constructor <;> simp <;> omega
    · have hlt : b.ts < a.ts := by omega
      left
      constructor <;> simp <;> omega

/-- Witness for `record_order_total` at two concrete records with equal
timestamps and distinct publishers. -/
theorem record_order_total_witness :
    (isNewer { data := [], ts := 100, pub := [97, 97] }
        (some { data := [], ts := 100, pub := [98, 98] }) = true ∧
      isNewer { data := [], ts := 100, pub := [98, 98] }
        (some { data := [], ts := 100, pub := [97, 97] }) = false) ∨
    (isNewer { data := [], ts := 100, pub := [97, 97] }
        (some { data := [], ts := 100, pub := [98, 98] }) = false ∧
      isNewer { data := [], ts := 100, pub := [98, 98] }
        (some { data := [], ts := 100, pub := [97, 97] }) = true) :=
  record_order_total _ _ (by right; decide)

/-! ### Quorum publish (claim C2) -/

/-- Ack-counting loop of `storeValue`: walk the targets in order; skip
targets that are not connected; each STORE whose STORE_ACK arrives before the
5-second deadline increments the count; stop as soon as `W` acks are in.
Each outcome pairs (connected at send time, acked before deadline). -/
def countAcks (W : Nat) : List (Bool × Bool) → Nat → Nat
  | [], acks => acks
  | (conn, ok) :: rest, acks =>
    if conn then
      if ok then
        if W ≤ acks + 1 then acks + 1 else countAcks W rest (acks + 1)
      else countAcks W rest acks
    else countAcks W rest acks

/-- The entry `storeValue` installs on success:
`\x7b record, expires: now + STORE_TTL, publisher: true, lastRepair: 0 \x7d`. -/
def publisherEntry (record : Record) (now : Nat) : StoreEntry :=
  { record := record, expires := now + STORE_TTL, publisher := true, lastRepair := 0 }

/-- Model of `storeValue(key, value)` after the lookup phase: `outcomes`
lists, for each of the closest-K targets in order, whether it was connected
and whether its STORE_ACK arrived in time.  Returns the updated store and,
on quorum failure, the `(acks, W)` carried by the thrown error; the JS
throws before touching `this.store`, so the store is returned unchanged in
that case. -/
def storeValue (K : Nat) (store : Store) (keyId : List Nat) (record : Record)
    (now : Nat) (outcomes : List (Bool × Bool)) : Store × Option (Nat × Nat) :=
  let W := (K + 1) / 2
  let acks := countAcks W outcomes 0
  if acks < W then (store, some (acks, W))
  else (storeSet store keyId (publisherEntry record now), none)

theorem countAcks_min :
    ∀ (W : Nat) (l : List (Bool × Bool)) (acks : Nat), acks < W →
      countAcks W l acks = min W (acks + (l.filter (fun p => p.1 && p.2)).length) := by
  intro W l
  induction l with
  | nil =>
    intro acks h
    simp [countAcks]
    omega
  | cons p rest ih =>
    intro acks h
    obtain ⟨conn, ok⟩ := p
    cases conn with
    | false =>
      have h1 : countAcks W ((false, ok) :: rest) acks = countAcks W rest acks := by
        simp [countAcks]
      have hf : ((false, ok) :: rest).filter (fun p => p.1 && p.2) =
          rest.filter (fun p => p.1 && p.2) := by
        simp [List.filter_cons]
      rw [h1, ih acks h, hf]
    | true =>
      cases ok with
      | false =>
        have h1 : countAcks W ((true, false) :: rest) acks = countAcks W rest acks := by
          simp [countAcks]
        have hf : ((true, false) :: rest).filter (fun p => p.1 && p.2) =
            rest.filter (fun p => p.1 && p.2) := by
          simp [List.filter_cons]
        rw [h1, ih acks h, hf]
      | true =>
        have hf : ((true, true) :: rest).filter (fun p => p.1 && p.2) =
            (true, true) :: rest.filter (fun p => p.1 && p.2) := by
          simp [List.filter_cons]
        rw [hf]
        by_cases hw : W ≤ acks + 1
        · have h1 : countAcks W ((true, true) :: rest) acks = acks + 1 := by
            simp [countAcks, hw]
          rw [h1, List.length_cons]
          omega
        · have h1 : countAcks W ((true, true) :: rest) acks =
              countAcks W rest (acks + 1) := by
            simp [countAcks, hw]
          rw [h1, ih (acks + 1) (by omega), List.length_cons]
          omega

/-- Claim C2: with the constructor value K = 20 (so W = ⌈K/2⌉ = 10),
`storeValue` succeeds iff at least 10 of the targeted connected peers acked
before their deadlines; on failure it reports the quorum error with the
counts and leaves the local store untouched (in particular it installs no
`publisher = true` entry); on success it inserts the record locally with
`publisher = true` and expiry `now + STORE_TTL`. -/
theorem storeValue_quorum (store : Store) (keyId : List Nat) (record : Record)
    (now : Nat) (outcomes : List (Bool × Bool)) :
    ((storeValue 20 store keyId record now outcomes).2 = none ↔
      10 ≤ (outcomes.filter (fun p => p.1 && p.2)).length) ∧
    (∀ acks W, (storeValue 20 store keyId record now outcomes).2 = some (acks, W) →
      W = 10 ∧ acks < 10 ∧
        (storeValue 20 store keyId record now outcomes).1 = store) ∧
    ((storeValue 20 store keyId record now outcomes).2 = none →
      storeGet (storeValue 20 store keyId record now outcomes).1 keyId =
        some (publisherEntry record now)) := by
  have hmin := countAcks_min 10 outcomes 0 (by omega)
  have hW : ((20 : Nat) + 1) / 2 = 10 := by norm_num
  refine ⟨?_, ?_, ?_⟩
  · unfold storeValue
    simp only [hW]
    by_cases hq : countAcks 10 outcomes 0 < 10
    · rw [if_pos hq]
      simp only []
      constructor
      · intro hcontra
        simp at hcontra
      · intro hge
        rw [hmin] at hq
        omega
    · rw [if_neg hq]
      simp only []
      constructor
      · intro _
        rw [hmin] at hq
        omega
      · intro _
        trivial
  · intro acks W
    unfold storeValue
    simp only [hW]
    by_cases hq : countAcks 10 outcomes 0 < 10
    · rw [if_pos hq]
      intro heq
      have h1 : acks = countAcks 10 outcomes 0 ∧ W = 10 := by
        have := heq
        simp only [Option.some.injEq, Prod.mk.injEq] at this
        exact ⟨this.1.symm, this.2.symm⟩
      refine ⟨h1.2, by omega, rfl⟩
    · rw [if_neg hq]
      intro heq
      simp at heq
  · unfold storeValue
    simp only [hW]
    by_cases hq : countAcks 10 outcomes 0 < 10
    · rw [if_pos hq]
      intro heq
      simp at heq
    · rw [if_neg hq]
      intro _
      exact storeGet_storeSet store keyId _

/-- Witness for `storeValue_quorum`: ten connected, acked targets succeed and
install the publisher entry. -/
theorem storeValue_quorum_witness :
    storeGet (storeValue 20 [] (List.replicate 32 3)
        { data := [65], ts := 7, pub := [97] } 1000
        (List.replicate 10 (true, true))).1 (List.replicate 32 3) =
      some (publisherEntry { data := [65], ts := 7, pub := [97] } 1000) :=
  (storeValue_quorum [] (List.replicate 32 3) { data := [65], ts := 7, pub := [97] }
    1000 (List.replicate 10 (true, true))).2.2 (by decide)

/-! ### Repair pass (claim C7) -/

/-- Store effect of one `_repairReplicas` pass: the loop skips every
non-publisher entry before any expiry test, deletes expired publisher
entries, and sends repair traffic for the rest without changing the store. -/
def repairReap (now : Nat) (store : Store) : Store :=
  store.filter (fun p => ! (p.2.publisher && decide (p.2.expires ≤ now)))

/-- Claim C7 (amended): a repair pass removes exactly the expired entries
with `publisher = true`; expired non-publisher entries (such as cached
lookups) are skipped before the expiry check and survive the pass (see
`repair_keeps_expired_cached`). -/
theorem repair_reaps_publisher_only (now : Nat) (store : Store) (k : List Nat)
    (e : StoreEntry) (hnd : (store.map Prod.fst).Nodup)
    (hget : storeGet store k = some e) :
    (e.publisher = true → e.expires ≤ now → storeGet (repairReap now store) k = none) ∧
    (e.publisher = false → storeGet (repairReap now store) k = some e) := by
  induction store with
  | nil => simp [storeGet] at hget
  | cons p rest ih =>
    by_cases hp : p.1 = k
    · have hpe : p.2 = e := by
        unfold storeGet at hget
        rw [List.find?_cons_of_pos _ (by simp [hp])] at hget
        simpa using hget
      have hknotin : ∀ q ∈ rest, ¬ q.1 = k := by
        intro q hq hqk
        simp only [List.map_cons, List.nodup_cons] at hnd
        exact hnd.1 (List.mem_map.mpr ⟨q, hq, by rw [hqk, hp]⟩)
      constructor
      · intro hpub hexp
        unfold repairReap
        rw [List.filter_cons, if_neg (by simp [hpe, hpub, hexp])]
        unfold storeGet
        rw [List.find?_eq_none.mpr]
        · rfl
        · intro q hq
          simp only [decide_eq_true_eq]
          exact hknotin q (List.mem_of_mem_filter hq)
      · intro hpub
        unfold repairReap
        rw [List.filter_cons, if_pos (by simp [hpe, hpub])]
        unfold storeGet
        rw [List.find?_cons_of_pos _ (by simp [hp])]
        simp [hpe]
    · have hget2 : storeGet rest k = some e := by
        unfold storeGet at hget ⊢
        rwa [List.find?_cons_of_neg _ (by simp [hp])] at hget
      have hnd2 : (rest.map Prod.fst).Nodup := by
        simp only [List.map_cons, List.nodup_cons] at hnd
        exact hnd.2
      have ih2 := ih hnd2 hget2
      constructor
      · intro hpub hexp
        unfold repairReap
        rw [List.filter_cons]
        by_cases hkeep : (! (p.2.publisher && decide (p.2.expires ≤ now))) = true
        · rw [if_pos hkeep]
          unfold storeGet
          rw [List.find?_cons_of_neg _ (by simp [hp])]
          exact ih2.1 hpub hexp
        · rw [if_neg hkeep]
          exact ih2.1 hpub hexp
      · intro hpub
        unfold repairReap
        rw [List.filter_cons]
        by_cases hkeep : (! (p.2.publisher && decide (p.2.expires ≤ now))) = true
        · rw [if_pos hkeep]
          unfold storeGet
          rw [List.find?_cons_of_neg _ (by simp [hp])]
          exact ih2.2 hpub
        · rw [if_neg hkeep]
          exact ih2.2 hpub

/-- Witness for `repair_reaps_publisher_only`: an expired publisher entry is
deleted by the pass. -/
def emptyRecordCE : Record := { data := [], ts := 0, pub := [] }

def publisherEntryCE : StoreEntry :=
  { record := emptyRecordCE, expires := 1, publisher := true, lastRepair := 0 }

def cachedEntryCE : StoreEntry :=
  { record := emptyRecordCE, expires := 1, publisher := false, lastRepair := 0 }

theorem repair_reaps_publisher_only_witness :
    storeGet (repairReap 5 [(List.replicate 32 7, publisherEntryCE)])
      (List.replicate 32 7) = none :=
  (repair_reaps_publisher_only 5 _ (List.replicate 32 7) publisherEntryCE
    (by decide) (by decide)).1 (by decide) (by decide)

/-- Claim C7 (counterexample): an expired non-publisher (cached) entry
survives the repair pass unchanged, although its expiry has passed. -/
theorem repair_keeps_expired_cached :
    repairReap 5 [(List.replicate 32 7, cachedEntryCE)] =
      [(List.replicate 32 7, cachedEntryCE)] ∧
    cachedEntryCE.expires ≤ 5 ∧ cachedEntryCE.publisher = false := by
  decide

/-! ### Shortlist union in findValue (claim C5) -/

/-- Shortlist-union step of `findValue` on a FIND_VALUE_RESPONSE carrying
`nodes`: push each id not already present, then re-sort by XOR distance to
the key and truncate to K.  Unlike `iterativeFindNode` (which skips
`n.equals(this.peerId)`) and the FIND_NODE_RESPONSE handler (which filters
`node.equals(this.peerId)`), this loop performs no self check. -/
def findValueUnion (shortlist nodes : List (List Nat)) (keyId : List Nat) (K : Nat) :
    List (List Nat) :=
  let sl := nodes.foldl
    (fun sl n => if sl.any (fun x => x = n) then sl else sl ++ [n]) shortlist
  (sl.mergeSort (fun a b => distLe keyId a b)).take K

/-- Corresponding union step of `iterativeFindNode`, which does filter the
local id out of response nodes before pushing. -/
def iterativeFindNodeUnion (selfId : List Nat) (shortlist nodes : List (List Nat))
    (targetId : List Nat) (K : Nat) : List (List Nat) :=
  let sl := nodes.foldl
    (fun sl n =>
      if n = selfId then sl
      else if sl.any (fun x => x = n) then sl else sl ++ [n]) shortlist
  (sl.mergeSort (fun a b => distLe targetId a b)).take K

/-- Claim C5: evaluation of the `findValue` union step at a failing input:
a FIND_VALUE_RESPONSE whose nodes list contains the local id `aa…aa` puts
the local id into the shortlist, because this loop has no self check; the
`iterativeFindNode` union at the same input keeps the local id out. -/
theorem findValue_union_admits_self :
    List.replicate 32 170 ∈ findValueUnion [] [List.replicate 32 170]
      (List.replicate 32 0) 20 ∧
    List.replicate 32 170 ∉ iterativeFindNodeUnion (List.replicate 32 170) []
      [List.replicate 32 170] (List.replicate 32 0) 20 := by
  constructor
  · unfold findValueUnion
    have h1 : ([List.replicate 32 170].foldl
        (fun sl n => if sl.any (fun x => x = n) then sl else sl ++ [n])
        ([] : List (List Nat))) = [List.replicate 32 170] := by
      decide
    rw [h1]
    simp only [List.mergeSort_singleton]
    decide
  · unfold iterativeFindNodeUnion
    have h1 : ([List.replicate 32 170].foldl
        (fun sl n =>
          if n = List.replicate 32 170 then sl
          else if sl.any (fun x => x = n) then sl else sl ++ [n])
        ([] : List (List Nat))) = [] := by
      decide
    rw [h1]
    simp only [List.mergeSort_nil]
    decide

/-! ### Inbound FIND_NODE handling (claim C10) -/

/-- Outbound messages of the MSG_FIND_NODE branch, with the randomly drawn
message ids of the pushed STOREs abstracted away. -/
inductive OutMsg where
  | findNodeResponse (messageId : List Nat) (nodes : List (List Nat))
  | storeMsg (key : List Nat) (record : Record)
  deriving Repr, DecidableEq

/-- The push condition of the store loop in the MSG_FIND_NODE branch: the
requester is strictly closer to the entry key than the furthest of this
node K closest known ids to that key, or no closest id is known at all. -/
def shouldPushStore (rt : RoutingTable) (peerId keyId : List Nat) : Bool :=
  match (rt.findClosest keyId 20).getLast? with
  | none => true
  | some furthest =>
    decide (compareDistance (xorDistance peerId keyId) (xorDistance furthest keyId) < 0)

/-- Sends performed by the MSG_FIND_NODE branch of `handleMessage`
(peer-node.js lines 859-891): drop duplicates via the seen-requests set,
else send the FIND_NODE_RESPONSE with the K=20 closest ids, then walk the
local store and push an unsolicited STORE for every entry whose key the
requester is closer to than the furthest of the K closest known ids (the
branch also records the request in the seen set and refreshes the routing
table `lastUsed`, which do not affect the send list). -/
def handleFindNode (rt : RoutingTable) (seen : List (List Nat × List Nat))
    (store : Store) (peerId messageId targetNodeId : List Nat) : List OutMsg :=
  if (peerId, messageId) ∈ seen then []
  else
    .findNodeResponse messageId (rt.findClosest targetNodeId 20) ::
      store.filterMap (fun p =>
        if shouldPushStore rt peerId p.1 then some (.storeMsg p.1 p.2.record) else none)

/-- Claim C10: on a non-duplicate FIND_NODE request the handler first sends
the FIND_NODE_RESPONSE with the 20 closest known ids, and afterwards sends
exactly one unsolicited STORE for each store entry whose key satisfies the
push condition (requester strictly closer to the key than the furthest of
the K closest known ids, or no known closest id). -/
theorem findNode_handler_sends (rt : RoutingTable) (seen : List (List Nat × List Nat))
    (store : Store) (peerId messageId target : List Nat)
    (hseen : (peerId, messageId) ∉ seen) :
    (handleFindNode rt seen store peerId messageId target).head? =
      some (.findNodeResponse messageId (rt.findClosest target 20)) ∧
    ∀ k e, (k, e) ∈ store →
      ((OutMsg.storeMsg k e.record ∈
          (handleFindNode rt seen store peerId messageId target).tail) ↔
        shouldPushStore rt peerId k = true) := by
  unfold handleFindNode
  rw [if_neg hseen]
  refine ⟨rfl, ?_⟩
  intro k e hke
  simp only [List.tail_cons]
  constructor
  · intro hmem
    rw [List.mem_filterMap] at hmem
    obtain ⟨p, hp, hfp⟩ := hmem
    by_cases hc : shouldPushStore rt peerId p.1 = true
    · rw [if_pos hc] at hfp
      have hk : p.1 = k := by
        have := hfp
        simp only [Option.some.injEq, OutMsg.storeMsg.injEq] at this
        exact this.1
      rwa [hk] at hc
    · rw [if_neg hc] at hfp
      exact absurd hfp (by simp)
  · intro hc
    rw [List.mem_filterMap]
    exact ⟨(k, e), hke, by rw [if_pos hc]⟩

/-- Witness for `findNode_handler_sends`: a fresh table knows no ids, so the
push condition holds and the single store entry is pushed after the
response. -/
theorem findNode_handler_sends_witness :
    (handleFindNode (RoutingTable.init (List.replicate 32 0) 20 0) []
        [(List.replicate 32 7, cachedEntryCE)] (List.replicate 32 170)
        [0, 1, 2, 3, 4, 5, 6, 7] (List.replicate 32 1)).head? =
      some (.findNodeResponse [0, 1, 2, 3, 4, 5, 6, 7]
        ((RoutingTable.init (List.replicate 32 0) 20 0).findClosest
          (List.replicate 32 1) 20)) :=
  (findNode_handler_sends (RoutingTable.init (List.replicate 32 0) 20 0) []
    [(List.replicate 32 7, cachedEntryCE)] (List.replicate 32 170)
    [0, 1, 2, 3, 4, 5, 6, 7] (List.replicate 32 1) (by decide)).1

end DHT
